import Mathlib

/-!
Verification development for the SS6 real-time simulation core.

Shallow embedding of the per-frame simulation code:
* `src/utils/particle_system.py` (`ParticleManager`)
* `src/utils/level_resource_manager.py` (effect collections)
* `src/levels/numbers_level.py` (falling-number physics, collisions, clicks,
  checkpoint logic)
* `src/levels/colors_level.py` (dots, collision resolution, color switching)
* `src/SS6.origional.py` (legacy game loop click handling, explosion pool)

Python floats are modelled as rationals (ℚ); `math.sqrt` / `math.hypot`
appear as an explicit function parameter `sqrtQ` so that all definitions
stay executable.  Python dicts are records; Python's `list.remove` /
`in` (which compare dicts by value) are modelled by first-match erasure
under value equality of the records.
-/

namespace SS6

/-- Remove the first element satisfying `p` (Python `list.remove` semantics:
if no element matches, the list is unchanged; the caller guards with `in`). -/
def eraseFirst {α : Type} (p : α → Bool) : List α → List α
  | [] => []
  | x :: xs => if p x then xs else x :: eraseFirst p xs

/-- Fold step of Python `min(l, key=key)`: keep the current best unless a
strictly smaller key appears, so the overall result is the FIRST element
attaining the minimum key. -/
def minByKeyGo {α : Type} (key : α → ℤ) (best : α) : List α → α
  | [] => best
  | x :: xs =>
      if key x < key best then minByKeyGo key x xs else minByKeyGo key best xs

/-- Python `min(l, key=key)`: `none` on the empty list (Python raises
`ValueError` there). -/
def minByKey {α : Type} (key : α → ℤ) : List α → Option α
  | [] => none
  | x :: xs => some (minByKeyGo key x xs)

/-! ## ParticleManager (`src/utils/particle_system.py`)

A particle dict.  Pool entries are identified by their index into the
pre-created pool (`particle_pool`); the `particles` list holds such
indices.  Python's `in`/`remove` on the particles list compare dicts by
value, which is modelled by comparing the pooled records. -/

structure Particle where
  x : ℚ
  y : ℚ
  color : ℕ
  size : ℚ
  dx : ℚ
  dy : ℚ
  duration : ℤ
  startDuration : ℤ
  active : Bool
deriving DecidableEq, Repr

/-- The pre-created pool entry (`particle_system.py` lines 15–20). -/
def initParticle : Particle :=
  { x := 0, y := 0, color := 0, size := 0, dx := 0, dy := 0,
    duration := 0, startDuration := 0, active := false }

/-- `ParticleManager` state: `pool` maps a pool index to the dict stored
there; `particles` is the list of (indices of) live particle dicts. -/
structure PMState where
  maxParticles : ℕ
  pool : ℕ → Particle
  particles : List ℕ
  cullingDistance : ℚ

/-- `ParticleManager.__init__(max_particles)`. -/
def initPM (m : ℕ) : PMState :=
  { maxParticles := m, pool := fun _ => initParticle, particles := [],
    cullingDistance := 1920 }

/-- Point update of the pool function (in-place dict mutation). -/
def poolSet (pool : ℕ → Particle) (i : ℕ) (p : Particle) : ℕ → Particle :=
  fun j => if j = i then p else pool j

/-- `ParticleManager.get_particle`: first inactive pool entry, marked
active; `none` when the pool is exhausted. -/
def getParticle (s : PMState) : Option (ℕ × PMState) :=
  match (List.range s.maxParticles).find? (fun i => !(s.pool i).active) with
  | some i =>
      some (i, { s with pool := poolSet s.pool i { s.pool i with active := true } })
  | none => none

/-- `ParticleManager.release_particle(particle)`: if a value-equal dict is
in `particles`, remove the first such occurrence; then clear the flag. -/
def releaseParticle (i : ℕ) (s : PMState) : PMState :=
  let s1 := { s with particles := eraseFirst (fun j => s.pool j == s.pool i) s.particles }
  { s1 with pool := poolSet s1.pool i { s1.pool i with active := false } }

/-- Arguments of `create_particle`. -/
structure PArgs where
  x : ℚ
  y : ℚ
  color : ℕ
  size : ℚ
  dx : ℚ
  dy : ℚ
  duration : ℤ
deriving DecidableEq, Repr

/-- Second half of `create_particle` (lines 47–56): grab a pool entry,
overwrite its fields (`particle.update({...})`) and append it to the
`particles` list; Python returns `None` when `get_particle` found nothing. -/
def createFill (a : PArgs) (s1 : PMState) : Option ℕ × PMState :=
  match getParticle s1 with
  | some (i, s2) =>
      let p : Particle :=
        { x := a.x, y := a.y, color := a.color, size := a.size, dx := a.dx,
          dy := a.dy, duration := a.duration, startDuration := a.duration,
          active := true }
      (some i, { s2 with pool := poolSet s2.pool i p,
                         particles := s2.particles ++ [i] })
  | none => (none, s1)

/-- `ParticleManager.create_particle`: evict the minimum-duration particle
when at the limit, then grab a pool entry and fill it.  Outer `none`
models the `ValueError` of `min([])` (only reachable with
`max_particles = 0`); the inner `Option ℕ` is the Python return value
(`None` = pool exhausted). -/
def createParticle (a : PArgs) (s : PMState) : Option (Option ℕ × PMState) :=
  if s.maxParticles ≤ s.particles.length then
    match minByKey (fun j => (s.pool j).duration) s.particles with
    | some o => some (createFill a (releaseParticle o s))
    | none => none
  else
    some (createFill a s)

/-- Culling test of `ParticleManager.update` (lines 81–82). -/
def inCullBounds (c : ℚ) (x y : ℚ) : Bool :=
  (-c ≤ x && x ≤ c * 2) && (-c ≤ y && y ≤ c * 2)

/-- One pass of the in-place mutation of `update` (lines 71–73): advance
position by velocity and decrement the duration. -/
def ageParticle (p : Particle) : Particle :=
  { p with x := p.x + p.dx, y := p.y + p.dy, duration := p.duration - 1 }

/-- `particle["active"] = False`. -/
def deactivate (p : Particle) : Particle := { p with active := false }

/-- The per-particle loop of `ParticleManager.update`: skip inactive
entries, advance position and duration in place, deactivate expired or
out-of-bounds particles, and collect the survivors in order. -/
def pmUpdateGo (c : ℚ) : List ℕ → (ℕ → Particle) → List ℕ × (ℕ → Particle)
  | [], pool => ([], pool)
  | j :: rest, pool =>
      if !(pool j).active then pmUpdateGo c rest pool
      else
        let p1 := ageParticle (pool j)
        if p1.duration ≤ 0 then
          pmUpdateGo c rest (poolSet pool j (deactivate p1))
        else if !(inCullBounds c p1.x p1.y) then
          pmUpdateGo c rest (poolSet pool j (deactivate p1))
        else
          let r := pmUpdateGo c rest (poolSet pool j p1)
          (j :: r.1, r.2)

/-- `ParticleManager.update` (the final pool loop in the source only
`continue`s, so it is a no-op and is not modelled). -/
def pmUpdate (s : PMState) : PMState :=
  if s.particles.isEmpty then s
  else
    let r := pmUpdateGo s.cullingDistance s.particles s.pool
    { s with particles := r.1, pool := r.2 }

/-- `ParticleManager.cleanup`: deactivate every dict in `particles`, then
clear the list. -/
def pmCleanup (s : PMState) : PMState :=
  { s with
    pool := s.particles.foldl
      (fun pl j => poolSet pl j { pl j with active := false }) s.pool,
    particles := [] }

/-- The public operations quantified over by the pool claims. -/
inductive PMOp where
  | create (a : PArgs)
  | update
  | release (i : ℕ)
  | cleanup
deriving DecidableEq, Repr

/-- Run a sequence of public operations, collecting the return value of
every `create_particle` call; `none` propagates the (max_particles = 0)
`ValueError` of `create_particle`. -/
def runPMOps : List PMOp → PMState → Option (List (Option ℕ) × PMState)
  | [], s => some ([], s)
  | PMOp.create a :: ops, s =>
      match createParticle a s with
      | some (r, s1) =>
          match runPMOps ops s1 with
          | some (rs, s2) => some (r :: rs, s2)
          | none => none
      | none => none
  | PMOp.update :: ops, s => runPMOps ops (pmUpdate s)
  | PMOp.release i :: ops, s => runPMOps ops (releaseParticle i s)
  | PMOp.cleanup :: ops, s => runPMOps ops (pmCleanup s)

/-! ### List helper lemmas -/

theorem length_eraseFirst_le {α : Type} (p : α → Bool) (l : List α) :
    (eraseFirst p l).length ≤ l.length := by
  induction l with
  | nil => simp [eraseFirst]
  | cons x xs ih =>
      by_cases h : p x = true
      · simp [eraseFirst, h]
      · simp only [eraseFirst, h, if_neg, List.length_cons, Bool.not_eq_true] at *
        simpa [h] using Nat.succ_le_succ ih

theorem length_eraseFirst_of_exists {α : Type} (p : α → Bool) (l : List α)
    (h : ∃ a ∈ l, p a = true) :
    (eraseFirst p l).length + 1 = l.length := by
  induction l with
  | nil => simp at h
  | cons x xs ih =>
      by_cases hx : p x = true
      · simp [eraseFirst, hx]
      · have h' : ∃ a ∈ xs, p a = true := by
          rcases h with ⟨a, ha, hpa⟩
          rcases List.mem_cons.mp ha with rfl | ha'
          · exact absurd hpa hx
          · exact ⟨a, ha', hpa⟩
        simp [eraseFirst, hx, ← ih h']

theorem minByKeyGo_mem {α : Type} (key : α → ℤ) (b : α) (l : List α) :
    minByKeyGo key b l = b ∨ minByKeyGo key b l ∈ l := by
  induction l generalizing b with
  | nil => simp [minByKeyGo]
  | cons x xs ih =>
      simp only [minByKeyGo]
      by_cases h : key x < key b
      · simp only [h, if_pos]
        rcases ih x with h1 | h1
        · right; simp [h1]
        · right; simp [h1]
      · simp only [h, if_neg, ite_false]
        rcases ih b with h1 | h1
        · left; exact h1
        · right; simp [h1]

theorem minByKey_mem {α : Type} (key : α → ℤ) (l : List α) (o : α)
    (h : minByKey key l = some o) : o ∈ l := by
  cases l with
  | nil => simp [minByKey] at h
  | cons x xs =>
      simp only [minByKey, Option.some.injEq] at h
      rcases minByKeyGo_mem key x xs with h1 | h1
      · simp [← h, h1]
      · simp [← h, h1]

theorem pmUpdateGo_length_le (c : ℚ) (l : List ℕ) (pool : ℕ → Particle) :
    (pmUpdateGo c l pool).1.length ≤ l.length := by
  induction l generalizing pool with
  | nil => simp [pmUpdateGo]
  | cons j rest ih =>
      simp only [pmUpdateGo]
      by_cases h1 : ((pool j).active = false)
      · simp only [h1, Bool.not_false, if_pos]
        exact Nat.le_succ_of_le (ih pool)
      · have h1' : (pool j).active = true := by
          cases h : (pool j).active
          · exact absurd h h1
          · rfl
        simp only [h1', Bool.not_true, Bool.false_eq_true, if_false]
        split
        · exact Nat.le_succ_of_le (ih _)
        · split
          · exact Nat.le_succ_of_le (ih _)
          · simpa using Nat.succ_le_succ (ih _)

/-! ### C1: the particle pool bound -/

/-- `get_particle` only flips one pool flag: the list, the capacity and the
culling distance are untouched. -/
theorem getParticle_spec (s : PMState) (i : ℕ) (s2 : PMState)
    (h : getParticle s = some (i, s2)) :
    s2.particles = s.particles ∧ s2.maxParticles = s.maxParticles := by
  simp only [getParticle] at h
  cases hfind : (List.range s.maxParticles).find? (fun i => !(s.pool i).active) with
  | none => simp [hfind] at h
  | some i0 =>
      simp only [hfind, Option.some.injEq, Prod.mk.injEq] at h
      rw [← h.2]
      exact ⟨rfl, rfl⟩

/-- After any single `create_particle`, `maxParticles` is unchanged and the
particle-list bound is preserved. -/
theorem createParticle_bound (a : PArgs) (s : PMState) (r : Option ℕ) (s' : PMState)
    (hinv : s.particles.length ≤ s.maxParticles)
    (h : createParticle a s = some (r, s')) :
    s'.particles.length ≤ s'.maxParticles ∧ s'.maxParticles = s.maxParticles := by
  by_cases hfull : s.maxParticles ≤ s.particles.length
  · have hlen : s.particles.length = s.maxParticles := Nat.le_antisymm hinv hfull
    simp only [createParticle, createFill, hfull, if_pos] at h
    cases hmin : minByKey (fun j => (s.pool j).duration) s.particles with
    | none => simp [hmin] at h
    | some o =>
        have homem : o ∈ s.particles := minByKey_mem _ _ _ hmin
        simp only [hmin, Option.some.injEq] at h
        have hrel : ((releaseParticle o s).particles.length) + 1 = s.particles.length := by
          simp only [releaseParticle]
          exact length_eraseFirst_of_exists _ _ ⟨o, homem, by simp⟩
        have hrelmax : (releaseParticle o s).maxParticles = s.maxParticles := rfl
        cases hget : getParticle (releaseParticle o s) with
        | some is2 =>
            obtain ⟨i, s2⟩ := is2
            obtain ⟨h2p, h2m⟩ := getParticle_spec _ _ _ hget
            simp only [hget, Prod.mk.injEq] at h
            rw [← h.2]
            constructor
            · simp only [List.length_append, List.length_cons, List.length_nil, h2p]
              omega
            · rw [h2m, hrelmax]
        | none =>
            simp only [hget, Prod.mk.injEq] at h
            rw [← h.2]
            exact ⟨by omega, rfl⟩
  · simp only [createParticle, createFill, hfull, if_neg, Option.some.injEq,
      not_false_iff] at h
    cases hget : getParticle s with
    | some is2 =>
        obtain ⟨i, s2⟩ := is2
        obtain ⟨h2p, h2m⟩ := getParticle_spec _ _ _ hget
        simp only [hget, Prod.mk.injEq] at h
        rw [← h.2]
        constructor
        · simp only [List.length_append, List.length_cons, List.length_nil, h2p]
          omega
        · exact h2m
    | none =>
        simp only [hget, Prod.mk.injEq] at h
        rw [← h.2]
        exact ⟨hinv, rfl⟩

theorem pmUpdate_bound (s : PMState)
    (hinv : s.particles.length ≤ s.maxParticles) :
    (pmUpdate s).particles.length ≤ (pmUpdate s).maxParticles ∧
      (pmUpdate s).maxParticles = s.maxParticles := by
  simp only [pmUpdate]
  split
  · exact ⟨hinv, rfl⟩
  · refine ⟨?_, rfl⟩
    exact le_trans (pmUpdateGo_length_le _ _ _) hinv

theorem releaseParticle_bound (i : ℕ) (s : PMState)
    (hinv : s.particles.length ≤ s.maxParticles) :
    (releaseParticle i s).particles.length ≤ (releaseParticle i s).maxParticles ∧
      (releaseParticle i s).maxParticles = s.maxParticles := by
  refine ⟨?_, rfl⟩
  simp only [releaseParticle]
  exact le_trans (length_eraseFirst_le _ _) hinv

/-- C1 auxiliary: the bound is an invariant of every run. -/
theorem runPMOps_bound (ops : List PMOp) (s : PMState)
    (hinv : s.particles.length ≤ s.maxParticles) :
    ∀ rs s', runPMOps ops s = some (rs, s') →
      s'.particles.length ≤ s'.maxParticles ∧ s'.maxParticles = s.maxParticles := by
  induction ops generalizing s with
  | nil =>
      intro rs s' h
      simp only [runPMOps, Option.some.injEq, Prod.mk.injEq] at h
      rw [← h.2]
      exact ⟨hinv, rfl⟩
  | cons op ops ih =>
      intro rs s' h
      cases op with
      | create a =>
          simp only [runPMOps] at h
          cases hc : createParticle a s with
          | none => simp [hc] at h
          | some rs1 =>
              obtain ⟨r, s1⟩ := rs1
              simp only [hc] at h
              cases hr : runPMOps ops s1 with
              | none => simp [hr] at h
              | some p2 =>
                  obtain ⟨rs2, s2⟩ := p2
                  simp only [hr, Option.some.injEq, Prod.mk.injEq] at h
                  have hstep := createParticle_bound a s r s1 hinv hc
                  have htail := ih s1 hstep.1 rs2 s2 hr
                  have hs' : s' = s2 := h.2.symm
                  subst hs'
                  exact ⟨htail.1, htail.2.trans hstep.2⟩
      | update =>
          simp only [runPMOps] at h
          have hstep := pmUpdate_bound s hinv
          have htail := ih (pmUpdate s) hstep.1 rs s' h
          exact ⟨htail.1, htail.2.trans hstep.2⟩
      | release i =>
          simp only [runPMOps] at h
          have hstep := releaseParticle_bound i s hinv
          have htail := ih (releaseParticle i s) hstep.1 rs s' h
          exact ⟨htail.1, htail.2.trans hstep.2⟩
      | cleanup =>
          simp only [runPMOps] at h
          have htail := ih (pmCleanup s) (by simp [pmCleanup]) rs s' h
          exact ⟨htail.1, htail.2⟩

/-- C1: for every `ParticleManager(max_particles = m)` and every sequence
of the public operations `create_particle`, `update`, `release_particle`
and `cleanup`, the length of the `particles` list is at most
`max_particles` at every observation point. -/
theorem particle_pool_bound (ops : List PMOp) (m : ℕ)
    (rs : List (Option ℕ)) (s' : PMState)
    (h : runPMOps ops (initPM m) = some (rs, s')) :
    s'.particles.length ≤ m := by
  have hb := runPMOps_bound ops (initPM m) (by simp [initPM]) rs s' h
  have hm : s'.maxParticles = m := hb.2
  rw [← hm]
  exact hb.1

/-- Witness for C1 at a concrete run. -/
theorem particle_pool_bound_witness : (initPM 2).particles.length ≤ 2 :=
  particle_pool_bound [] 2 [] (initPM 2) rfl

/-! ### C10: `create_particle` and the pool-exhausted branch

`release_particle` looks its argument up in the `particles` list with
Python `in`/`remove`, which compare dicts by value.  Releasing a particle
that has a value-equal twin removes the twin instead and leaks an active
pool entry, after which `create_particle` can reach the pool-exhausted
branch and return `None`. -/

def c10A : PArgs := { x := 1, y := 0, color := 0, size := 1, dx := 0, dy := 0, duration := 5 }

def c10B : PArgs := { x := 2, y := 0, color := 0, size := 1, dx := 0, dy := 0, duration := 7 }

/-- Two identical creates make value-equal twins; releasing the second
twin twice leaks pool entry 0, which stays active forever. -/
def c10Seq : List PMOp :=
  [PMOp.create c10A, PMOp.create c10A, PMOp.release 1, PMOp.release 1,
   PMOp.create c10B, PMOp.create c10B]

/-- C10 counterexample: with `max_particles = 2 ≥ 1`, the fourth
`create_particle` of this sequence of public operations returns `None`
(the pool-exhausted branch is reached), refuting the claim that
`create_particle` never returns `None`. -/
theorem create_none_counterexample :
    (runPMOps c10Seq (initPM 2)).map (fun p => p.1) =
      some [some 0, some 1, some 1, none] := by
  decide

/-! Invariant machinery for the amended C10: in runs that never call
`release_particle`, the `particles` list is duplicate-free and list
membership coincides with the `active` flag, so `create_particle` always
finds a pool entry. -/

/-- The pool-consistency invariant maintained by `create`/`update`/`cleanup`. -/
def PMInv (s : PMState) : Prop :=
  s.particles.Nodup ∧ (∀ j ∈ s.particles, j < s.maxParticles) ∧
    (∀ i, (s.pool i).active = true ↔ i ∈ s.particles)

theorem minByKeyGo_decomp {α : Type} (key : α → ℤ) (l : List α) :
    ∀ b : α,
      (minByKeyGo key b l = b ∧ ∀ x ∈ l, ¬ key x < key b) ∨
      (∃ l1 l2, l = l1 ++ minByKeyGo key b l :: l2 ∧
        key (minByKeyGo key b l) < key b ∧
        ∀ x ∈ l1, key (minByKeyGo key b l) < key x) := by
  induction l with
  | nil => intro b; left; exact ⟨rfl, by simp⟩
  | cons x xs ih =>
      intro b
      by_cases hx : key x < key b
      · have hgo : minByKeyGo key b (x :: xs) = minByKeyGo key x xs := by
          simp [minByKeyGo, hx]
        rcases ih x with ⟨hm, hall⟩ | ⟨l1, l2, hdec, hlt, hpre⟩
        · right
          refine ⟨[], xs, ?_, ?_, by simp⟩
          · simp [hgo, hm]
          · rw [hgo, hm]; exact hx
        · right
          refine ⟨x :: l1, l2, ?_, ?_, ?_⟩
          · simp only [hgo, List.cons_append, List.cons.injEq, true_and]
            exact hdec
          · rw [hgo]; exact lt_trans hlt hx
          · intro y hy
            rcases List.mem_cons.mp hy with rfl | hy'
            · rw [hgo]; exact hlt
            · rw [hgo]; exact hpre y hy'
      · have hgo : minByKeyGo key b (x :: xs) = minByKeyGo key b xs := by
          simp [minByKeyGo, hx]
        rcases ih b with ⟨hm, hall⟩ | ⟨l1, l2, hdec, hlt, hpre⟩
        · left
          refine ⟨by rw [hgo]; exact hm, ?_⟩
          intro y hy
          rcases List.mem_cons.mp hy with rfl | hy'
          · exact hx
          · exact hall y hy'
        · right
          refine ⟨x :: l1, l2, ?_, ?_, ?_⟩
          · simp only [hgo, List.cons_append, List.cons.injEq, true_and]
            exact hdec
          · rw [hgo]; exact hlt
          · intro y hy
            rcases List.mem_cons.mp hy with rfl | hy'
            · rw [hgo]; exact lt_of_lt_of_le hlt (not_lt.mp hx)
            · rw [hgo]; exact hpre y hy'

/-- `min(l, key=key)` returns the FIRST element attaining the minimum:
every strictly earlier element has a strictly larger key. -/
theorem minByKey_decomp {α : Type} (key : α → ℤ) (l : List α) (o : α)
    (h : minByKey key l = some o) :
    ∃ l1 l2, l = l1 ++ o :: l2 ∧ ∀ x ∈ l1, key o < key x := by
  cases l with
  | nil => simp [minByKey] at h
  | cons x xs =>
      simp only [minByKey, Option.some.injEq] at h
      rcases minByKeyGo_decomp key xs x with ⟨hm, _⟩ | ⟨l1, l2, hdec, hlt, hpre⟩
      · exact ⟨[], xs, by simp [← h, hm], by simp⟩
      · refine ⟨x :: l1, l2, ?_, ?_⟩
        · simp only [List.cons_append, List.cons.injEq, true_and, ← h]
          exact hdec
        · intro y hy
          rcases List.mem_cons.mp hy with rfl | hy'
          · rw [← h]; exact hlt
          · rw [← h]; exact hpre y hy'

theorem minByKeyGo_le {α : Type} (key : α → ℤ) (l : List α) :
    ∀ b : α, key (minByKeyGo key b l) ≤ key b ∧
      ∀ x ∈ l, key (minByKeyGo key b l) ≤ key x := by
  induction l with
  | nil => intro b; exact ⟨le_refl _, by simp⟩
  | cons x xs ih =>
      intro b
      by_cases hx : key x < key b
      · have hgo : minByKeyGo key b (x :: xs) = minByKeyGo key x xs := by
          simp [minByKeyGo, hx]
        obtain ⟨h1, h2⟩ := ih x
        refine ⟨by rw [hgo]; exact le_trans h1 (le_of_lt hx), ?_⟩
        intro y hy
        rcases List.mem_cons.mp hy with rfl | hy'
        · rw [hgo]; exact h1
        · rw [hgo]; exact h2 y hy'
      · have hgo : minByKeyGo key b (x :: xs) = minByKeyGo key b xs := by
          simp [minByKeyGo, hx]
        obtain ⟨h1, h2⟩ := ih b
        refine ⟨by rw [hgo]; exact h1, ?_⟩
        intro y hy
        rcases List.mem_cons.mp hy with rfl | hy'
        · rw [hgo]; exact le_trans h1 (not_lt.mp hx)
        · rw [hgo]; exact h2 y hy'

/-- The element returned by `min(l, key=key)` has the minimum key. -/
theorem minByKey_le {α : Type} (key : α → ℤ) (l : List α) (o : α)
    (h : minByKey key l = some o) : ∀ x ∈ l, key o ≤ key x := by
  cases l with
  | nil => simp [minByKey] at h
  | cons x xs =>
      simp only [minByKey, Option.some.injEq] at h
      obtain ⟨h1, h2⟩ := minByKeyGo_le key xs x
      intro y hy
      rcases List.mem_cons.mp hy with rfl | hy'
      · rw [← h]; exact h1
      · rw [← h]; exact h2 y hy'

theorem eraseFirst_append {α : Type} (p : α → Bool) (l1 l2 : List α) (a : α)
    (h1 : ∀ x ∈ l1, p x = false) (h2 : p a = true) :
    eraseFirst p (l1 ++ a :: l2) = l1 ++ l2 := by
  induction l1 with
  | nil => simp [eraseFirst, h2]
  | cons x xs ih =>
      have hx : p x = false := h1 x (by simp)
      simp only [List.cons_append, eraseFirst, hx, Bool.false_eq_true, if_false,
        List.cons.injEq, true_and]
      exact ih (fun y hy => h1 y (by simp [hy]))

theorem getParticle_some_spec (s : PMState) (i : ℕ) (s2 : PMState)
    (h : getParticle s = some (i, s2)) :
    i < s.maxParticles ∧ (s.pool i).active = false ∧
      s2 = { s with pool := poolSet s.pool i { s.pool i with active := true } } := by
  simp only [getParticle] at h
  cases hfind : (List.range s.maxParticles).find? (fun i => !(s.pool i).active) with
  | none => simp [hfind] at h
  | some i0 =>
      simp only [hfind, Option.some.injEq, Prod.mk.injEq] at h
      obtain ⟨hi0, hs2⟩ := h
      rw [hi0] at hfind
      have hmem : i ∈ List.range s.maxParticles := List.mem_of_find?_eq_some hfind
      have hp := List.find?_some hfind
      refine ⟨List.mem_range.mp hmem, ?_, ?_⟩
      · simpa using hp
      · rw [← hs2, hi0]

theorem getParticle_none_spec (s : PMState) (h : getParticle s = none) :
    ∀ i < s.maxParticles, (s.pool i).active = true := by
  simp only [getParticle] at h
  cases hfind : (List.range s.maxParticles).find? (fun i => !(s.pool i).active) with
  | some i0 => simp [hfind] at h
  | none =>
      intro i hi
      have := List.find?_eq_none.mp hfind i (List.mem_range.mpr hi)
      simpa using this

theorem PMInv_length_le (s : PMState) (hinv : PMInv s) :
    s.particles.length ≤ s.maxParticles := by
  have hsub : s.particles ⊆ List.range s.maxParticles := fun j hj =>
    List.mem_range.mpr (hinv.2.1 j hj)
  have := (hinv.1.subperm hsub).length_le
  simpa using this

theorem getParticle_isSome_of_lt (s : PMState) (hinv : PMInv s)
    (hlt : s.particles.length < s.maxParticles) :
    ∃ i s2, getParticle s = some (i, s2) := by
  cases hget : getParticle s with
  | some p =>
      obtain ⟨i, s2⟩ := p
      exact ⟨i, s2, rfl⟩
  | none =>
      exfalso
      have hall := getParticle_none_spec s hget
      have hsub : List.range s.maxParticles ⊆ s.particles := fun i hi =>
        (hinv.2.2 i).mp (hall i (List.mem_range.mp hi))
      have hle := ((List.nodup_range _).subperm hsub).length_le
      rw [List.length_range] at hle
      omega

/-- `createFill` (the second half of `create_particle`) under the
invariant, with room in the pool: it returns a particle and preserves
the invariant. -/
theorem createFill_inv (a : PArgs) (s1 : PMState) (hinv : PMInv s1)
    (hlt : s1.particles.length < s1.maxParticles) :
    (createFill a s1).1.isSome = true ∧ PMInv (createFill a s1).2 ∧
      (createFill a s1).2.maxParticles = s1.maxParticles := by
  obtain ⟨i, s2, hget⟩ := getParticle_isSome_of_lt s1 hinv hlt
  obtain ⟨hi, hact, hs2⟩ := getParticle_some_spec s1 i s2 hget
  have hnotmem : i ∉ s1.particles := by
    intro hmem
    have := (hinv.2.2 i).mpr hmem
    rw [hact] at this
    exact Bool.false_ne_true this
  simp only [createFill, hget]
  subst hs2
  refine ⟨rfl, ⟨?_, ?_, ?_⟩, rfl⟩
  · exact List.nodup_append.mpr ⟨hinv.1, List.nodup_singleton i,
      fun x hx => by simp; intro hxi; subst hxi; exact hnotmem hx⟩
  · intro j hj
    rcases List.mem_append.mp hj with hj' | hj'
    · exact hinv.2.1 j hj'
    · have : j = i := by simpa using hj'
      subst this
      exact hi
  · intro j
    by_cases hji : j = i
    · subst hji
      simp [poolSet]
    · constructor
      · intro hactj
        simp only [poolSet, hji, if_neg, ite_false] at hactj
        exact List.mem_append.mpr (Or.inl ((hinv.2.2 j).mp hactj))
      · intro hmem
        rcases List.mem_append.mp hmem with hm | hm
        · simp only [poolSet, hji, if_neg, ite_false]
          exact (hinv.2.2 j).mpr hm
        · exact absurd (by simpa using hm) hji

/-- `create_particle` under the invariant (`max_particles ≥ 1`): it never
raises, never returns `None`, and preserves the invariant. -/
theorem createParticle_inv (a : PArgs) (s : PMState)
    (hm : 1 ≤ s.maxParticles) (hinv : PMInv s) :
    ∃ r s', createParticle a s = some (r, s') ∧ r.isSome = true ∧ PMInv s' ∧
      s'.maxParticles = s.maxParticles := by
  by_cases hfull : s.maxParticles ≤ s.particles.length
  · have hlen := PMInv_length_le s hinv
    have hlen' : s.particles.length = s.maxParticles := le_antisymm hlen hfull
    have hmin : ∃ o, minByKey (fun j => (s.pool j).duration) s.particles = some o := by
      cases hp : s.particles with
      | nil =>
          rw [hp] at hlen'
          simp at hlen'
          omega
      | cons j js => exact ⟨_, rfl⟩
    obtain ⟨o, hmin⟩ := hmin
    obtain ⟨l1, l2, hdec, hpre⟩ := minByKey_decomp _ _ _ hmin
    have homem : o ∈ s.particles := minByKey_mem _ _ _ hmin
    have herase : eraseFirst (fun j => s.pool j == s.pool o) s.particles = l1 ++ l2 := by
      rw [hdec]
      apply eraseFirst_append
      · intro x hx
        cases hbe : (s.pool x == s.pool o) with
        | false => rfl
        | true =>
            exfalso
            have hxo : s.pool x = s.pool o := by simpa using hbe
            have hlt := hpre x hx
            rw [hxo] at hlt
            exact lt_irrefl _ hlt
      · simp
    have hs1p : (releaseParticle o s).particles = l1 ++ l2 := by
      simp [releaseParticle, herase]
    have hnd := hinv.1
    rw [hdec] at hnd
    obtain ⟨hnd1, hnd2, hdisj⟩ := List.nodup_append.mp hnd
    have honotl2 : o ∉ l2 := (List.nodup_cons.mp hnd2).1
    have hInv1 : PMInv (releaseParticle o s) := by
      refine ⟨?_, ?_, ?_⟩
      · rw [hs1p]
        exact List.nodup_append.mpr ⟨hnd1, (List.nodup_cons.mp hnd2).2,
          fun x hx hx2 => hdisj hx (by simp [hx2])⟩
      · intro j hj
        rw [hs1p] at hj
        apply hinv.2.1
        rw [hdec]
        rcases List.mem_append.mp hj with hj' | hj'
        · exact List.mem_append.mpr (Or.inl hj')
        · exact List.mem_append.mpr (Or.inr (List.mem_cons_of_mem o hj'))
      · intro i
        by_cases hio : i = o
        · subst hio
          rw [hs1p]
          simp only [releaseParticle, poolSet, if_pos]
          constructor
          · intro hfalse
            simp at hfalse
          · intro hmem
            exfalso
            rcases List.mem_append.mp hmem with hm | hm
            · exact hdisj hm (by simp)
            · exact honotl2 hm
        · have hpool : (releaseParticle o s).pool i = s.pool i := by
            simp [releaseParticle, poolSet, hio]
          rw [hs1p, hpool]
          rw [hinv.2.2 i, hdec]
          constructor
          · intro hmem
            rcases List.mem_append.mp hmem with hm | hm
            · exact List.mem_append.mpr (Or.inl hm)
            · rcases List.mem_cons.mp hm with hm' | hm'
              · exact absurd hm' hio
              · exact List.mem_append.mpr (Or.inr hm')
          · intro hmem
            rcases List.mem_append.mp hmem with hm | hm
            · exact List.mem_append.mpr (Or.inl hm)
            · exact List.mem_append.mpr (Or.inr (List.mem_cons_of_mem o hm))
    have hlen1 : (releaseParticle o s).particles.length + 1 = s.particles.length := by
      rw [hs1p, hdec]
      simp only [List.length_append, List.length_cons]
      omega
    have hlt1 : (releaseParticle o s).particles.length <
        (releaseParticle o s).maxParticles := by
      have hmaxeq : (releaseParticle o s).maxParticles = s.maxParticles := rfl
      omega
    obtain ⟨hsome, hinv', hmax'⟩ := createFill_inv a (releaseParticle o s) hInv1 hlt1
    refine ⟨(createFill a (releaseParticle o s)).1, (createFill a (releaseParticle o s)).2,
      ?_, hsome, hinv', hmax'⟩
    simp only [createParticle, hfull, if_pos, hmin]
  · have hlt : s.particles.length < s.maxParticles := not_le.mp hfull
    obtain ⟨hsome, hinv', hmax'⟩ := createFill_inv a s hinv hlt
    refine ⟨(createFill a s).1, (createFill a s).2, ?_, hsome, hinv', hmax'⟩
    simp only [createParticle, hfull, if_neg, not_false_iff]

/-- The `update` loop: the surviving index list is a sublist of the input,
pool entries outside the input list are untouched, and an entry of the
input list is active afterwards iff it was active before and survived. -/
theorem pmUpdateGo_spec (c : ℚ) (l : List ℕ) :
    ∀ pool : ℕ → Particle, l.Nodup →
      (pmUpdateGo c l pool).1.Sublist l ∧
      (∀ i, i ∉ l → (pmUpdateGo c l pool).2 i = pool i) ∧
      (∀ i ∈ l, (((pmUpdateGo c l pool).2 i).active = true ↔
        ((pool i).active = true ∧ i ∈ (pmUpdateGo c l pool).1))) := by
  induction l with
  | nil =>
      intro pool _
      exact ⟨List.nil_sublist [], fun i _ => rfl, by simp⟩
  | cons j rest ih =>
      intro pool hnd
      obtain ⟨hjrest, hndr⟩ := List.nodup_cons.mp hnd
      cases hact : (pool j).active with
      | false =>
          have heq : pmUpdateGo c (j :: rest) pool = pmUpdateGo c rest pool := by
            simp [pmUpdateGo, hact]
          obtain ⟨hs, hout, hin⟩ := ih pool hndr
          rw [heq]
          refine ⟨List.Sublist.cons j hs, ?_, ?_⟩
          · intro i hi
            exact hout i (fun him => hi (List.mem_cons_of_mem j him))
          · intro i hi
            rcases List.mem_cons.mp hi with rfl | hi'
            · rw [hout i hjrest, hact]
              simp
            · exact hin i hi'
      | true =>
          by_cases hdur : (ageParticle (pool j)).duration ≤ 0
          · have heq : pmUpdateGo c (j :: rest) pool =
                pmUpdateGo c rest (poolSet pool j (deactivate (ageParticle (pool j)))) := by
              simp [pmUpdateGo, hact, hdur]
            obtain ⟨hs, hout, hin⟩ := ih _ hndr
            rw [heq]
            refine ⟨List.Sublist.cons j hs, ?_, ?_⟩
            · intro i hi
              have hij : i ≠ j := fun hij => hi (hij ▸ List.mem_cons_self j rest)
              rw [hout i (fun him => hi (List.mem_cons_of_mem j him))]
              simp [poolSet, hij]
            · intro i hi
              rcases List.mem_cons.mp hi with rfl | hi'
              · rw [hout i hjrest]
                simp only [poolSet, if_pos, deactivate]
                constructor
                · intro hfalse
                  simp at hfalse
                · intro hmem
                  exact absurd (hs.subset hmem.2) hjrest
              · have hij : i ≠ j := fun hij => hjrest (hij ▸ hi')
                rw [hin i hi']
                simp [poolSet, hij]
          · by_cases hcull : inCullBounds c (ageParticle (pool j)).x
                (ageParticle (pool j)).y
            · -- survivor branch
              have heq : pmUpdateGo c (j :: rest) pool =
                  (j :: (pmUpdateGo c rest (poolSet pool j (ageParticle (pool j)))).1,
                   (pmUpdateGo c rest (poolSet pool j (ageParticle (pool j)))).2) := by
                simp [pmUpdateGo, hact, hdur, hcull]
              obtain ⟨hs, hout, hin⟩ := ih _ hndr
              rw [heq]
              refine ⟨List.Sublist.cons₂ j hs, ?_, ?_⟩
              · intro i hi
                have hij : i ≠ j := fun hij => hi (hij ▸ List.mem_cons_self j rest)
                rw [hout i (fun him => hi (List.mem_cons_of_mem j him))]
                simp [poolSet, hij]
              · intro i hi
                rcases List.mem_cons.mp hi with rfl | hi'
                · rw [hout i hjrest]
                  simp [poolSet, ageParticle, hact]
                · have hij : i ≠ j := fun hij => hjrest (hij ▸ hi')
                  rw [hin i hi']
                  simp [poolSet, hij]
            · -- culled branch
              have heq : pmUpdateGo c (j :: rest) pool =
                  pmUpdateGo c rest (poolSet pool j (deactivate (ageParticle (pool j)))) := by
                simp [pmUpdateGo, hact, hdur, hcull]
              obtain ⟨hs, hout, hin⟩ := ih _ hndr
              rw [heq]
              refine ⟨List.Sublist.cons j hs, ?_, ?_⟩
              · intro i hi
                have hij : i ≠ j := fun hij => hi (hij ▸ List.mem_cons_self j rest)
                rw [hout i (fun him => hi (List.mem_cons_of_mem j him))]
                simp [poolSet, hij]
              · intro i hi
                rcases List.mem_cons.mp hi with rfl | hi'
                · rw [hout i hjrest]
                  simp only [poolSet, if_pos, deactivate]
                  constructor
                  · intro hfalse
                    simp at hfalse
                  · intro hmem
                    exact absurd (hs.subset hmem.2) hjrest
                · have hij : i ≠ j := fun hij => hjrest (hij ▸ hi')
                  rw [hin i hi']
                  simp [poolSet, hij]

theorem pmUpdate_inv (s : PMState) (hinv : PMInv s) :
    PMInv (pmUpdate s) ∧ (pmUpdate s).maxParticles = s.maxParticles := by
  by_cases hemp : s.particles.isEmpty
  · have heq : pmUpdate s = s := by simp [pmUpdate, hemp]
    rw [heq]
    exact ⟨hinv, rfl⟩
  · have heq : pmUpdate s = { s with
        particles := (pmUpdateGo s.cullingDistance s.particles s.pool).1,
        pool := (pmUpdateGo s.cullingDistance s.particles s.pool).2 } := by
      simp [pmUpdate, hemp]
    obtain ⟨hs, hout, hin⟩ := pmUpdateGo_spec s.cullingDistance s.particles s.pool hinv.1
    rw [heq]
    refine ⟨⟨hinv.1.sublist hs, ?_, ?_⟩, rfl⟩
    · intro j hj
      exact hinv.2.1 j (hs.subset hj)
    · intro i
      show ((pmUpdateGo s.cullingDistance s.particles s.pool).2 i).active = true ↔
        i ∈ (pmUpdateGo s.cullingDistance s.particles s.pool).1
      by_cases him : i ∈ s.particles
      · rw [hin i him]
        have : (s.pool i).active = true := (hinv.2.2 i).mpr him
        simp [this]
      · rw [hout i him]
        constructor
        · intro hact
          exact absurd ((hinv.2.2 i).mp hact) him
        · intro hmem
          exact absurd (hs.subset hmem) him

theorem cleanupPool_apply (l : List ℕ) :
    ∀ (pool : ℕ → Particle) (i : ℕ),
      (l.foldl (fun pl j => poolSet pl j { pl j with active := false }) pool) i
        = if i ∈ l then { pool i with active := false } else pool i := by
  induction l with
  | nil =>
      intro pool i
      simp
  | cons j rest ih =>
      intro pool i
      simp only [List.foldl_cons]
      rw [ih]
      by_cases hij : i = j
      · subst hij
        by_cases hir : i ∈ rest
        · simp [hir, poolSet]
        · simp [hir, poolSet]
      · by_cases hir : i ∈ rest
        · simp [List.mem_cons, hij, hir, poolSet]
        · simp [List.mem_cons, hij, hir, poolSet]

theorem pmCleanup_inv (s : PMState) (hinv : PMInv s) :
    PMInv (pmCleanup s) ∧ (pmCleanup s).maxParticles = s.maxParticles := by
  refine ⟨⟨by simp [pmCleanup], by simp [pmCleanup], ?_⟩, rfl⟩
  intro i
  simp only [pmCleanup]
  rw [cleanupPool_apply]
  constructor
  · intro hact
    exfalso
    by_cases him : i ∈ s.particles
    · rw [if_pos him] at hact
      simp at hact
    · rw [if_neg him] at hact
      exact him ((hinv.2.2 i).mp hact)
  · intro h
    simp at h

/-- Does this operation call `release_particle`? -/
def PMOp.isRel : PMOp → Bool
  | PMOp.release _ => true
  | _ => false

theorem runPMOps_no_none_aux (ops : List PMOp) :
    ∀ s : PMState, PMInv s → 1 ≤ s.maxParticles →
      (∀ op ∈ ops, op.isRel = false) →
      ∀ rs s', runPMOps ops s = some (rs, s') → ∀ r ∈ rs, r.isSome = true := by
  induction ops with
  | nil =>
      intro s _ _ _ rs s' h r hr
      simp only [runPMOps, Option.some.injEq, Prod.mk.injEq] at h
      rw [← h.1] at hr
      simp at hr
  | cons op ops ih =>
      intro s hinv hm hops rs s' h r hr
      have hopstail : ∀ op2 ∈ ops, op2.isRel = false :=
        fun op2 h2 => hops op2 (List.mem_cons_of_mem op h2)
      cases op with
      | create a =>
          obtain ⟨r0, s1, hc, hsome, hinv1, hmax1⟩ := createParticle_inv a s hm hinv
          simp only [runPMOps, hc] at h
          cases hrun : runPMOps ops s1 with
          | none =>
              rw [hrun] at h
              simp at h
          | some p2 =>
              obtain ⟨rs2, s2⟩ := p2
              rw [hrun] at h
              simp only [Option.some.injEq, Prod.mk.injEq] at h
              rw [← h.1] at hr
              rcases List.mem_cons.mp hr with rfl | hr'
              · exact hsome
              · exact ih s1 hinv1 (by omega) hopstail rs2 s2 hrun r hr'
      | update =>
          simp only [runPMOps] at h
          obtain ⟨hinv1, hmax1⟩ := pmUpdate_inv s hinv
          exact ih (pmUpdate s) hinv1 (by omega) hopstail rs s' h r hr
      | release i =>
          exfalso
          have := hops (PMOp.release i) (List.mem_cons_self _ _)
          simp [PMOp.isRel] at this
      | cleanup =>
          simp only [runPMOps] at h
          obtain ⟨hinv1, hmax1⟩ := pmCleanup_inv s hinv
          exact ih (pmCleanup s) hinv1 (by omega) hopstail rs s' h r hr

/-- C10 amended: for `max_particles ≥ 1` and every sequence of the public
operations that never calls `release_particle` (only `create_particle`,
`update`, `cleanup`), `create_particle` never returns `None`.  (As stated
— with `release_particle` allowed — the claim is refuted by
`create_none_counterexample`.) -/
theorem create_never_none_without_release (m : ℕ) (hm : 1 ≤ m)
    (ops : List PMOp) (hops : ∀ op ∈ ops, op.isRel = false)
    (rs : List (Option ℕ)) (s' : PMState)
    (h : runPMOps ops (initPM m) = some (rs, s'))
    (r : Option ℕ) (hr : r ∈ rs) : r.isSome = true := by
  have hinv : PMInv (initPM m) := by
    refine ⟨by simp [initPM], by simp [initPM], ?_⟩
    intro i
    simp [initPM, initParticle]
  exact runPMOps_no_none_aux ops (initPM m) hinv (by simpa [initPM] using hm)
    hops rs s' h r hr

/-- Witness for the amended C10 at a concrete run. -/
theorem create_never_none_without_release_witness : (some 0 : Option ℕ).isSome = true :=
  create_never_none_without_release 1 (by decide) [PMOp.create c10A] (by decide)
    _ _ rfl (some 0) (by decide)

/-! ## Effect collections (`src/utils/level_resource_manager.py` and
`src/SS6.origional.py`) -/

/-- An RGB colour tuple. -/
abbrev Color : Type := ℕ × ℕ × ℕ

/-- Explosion dict built by `LevelResourceManager.create_explosion`
(lines 108–117). -/
structure Expl where
  x : ℚ
  y : ℚ
  radius : ℚ
  color : Color
  maxRadius : ℚ
  duration : ℤ
  startDuration : ℤ
  createdTime : ℚ
deriving DecidableEq, Repr

/-- Explosion dict built by the legacy `create_explosion` of
`SS6.origional.py` (lines 1067–1075; it has no `created_time` key). -/
structure Ss6Expl where
  x : ℚ
  y : ℚ
  radius : ℚ
  color : Color
  maxRadius : ℚ
  duration : ℤ
  startDuration : ℤ
deriving DecidableEq, Repr

/-- Laser dict of `LevelResourceManager.create_laser` (lines 151–161). -/
structure Laser where
  startX : ℚ
  startY : ℚ
  endX : ℚ
  endY : ℚ
  color : Color
  width : ℚ
  duration : ℤ
  startDuration : ℤ
  createdTime : ℚ
deriving DecidableEq, Repr

/-- Legacy laser dict processed by `NumbersLevel._process_lasers`
(lines 662–671): only its lifetime-relevant fields are modelled. -/
structure LegacyLaser where
  startPos : ℚ × ℚ
  endPos : ℚ × ℚ
  isFlame : Bool
  duration : ℤ
deriving DecidableEq, Repr

/-- The aging step of `update_effects` for one explosion (lines 232–233):
duration decrement, then radius eased 10% toward `max_radius`. -/
def ageExpl (e : Expl) : Expl :=
  { e with duration := e.duration - 1,
           radius := e.radius + (e.maxRadius - e.radius) * (1/10) }

/-- The aging step of `update_effects` for one laser (line 244). -/
def ageLaser (e : Laser) : Laser := { e with duration := e.duration - 1 }

/-- The removal loop of `update_effects` (lines 238–239 and 249–250):
`list.remove` each collected element, i.e. erase the first value-equal
occurrence, one collected element at a time. -/
def removeEach {α : Type} [DecidableEq α] (l toRemove : List α) : List α :=
  toRemove.foldl (fun acc e => eraseFirst (fun x => x == e) acc) l

/-- `LevelResourceManager.update_effects`, explosion half (lines 229–239):
age every explosion in place, collect those with duration ≤ 0, then
remove the collected ones. -/
def updateExplosions (l : List Expl) : List Expl :=
  let aged := l.map ageExpl
  removeEach aged (aged.filter (fun e => e.duration ≤ 0))

/-- `LevelResourceManager.update_effects`, laser half (lines 241–250). -/
def updateLasers (l : List Laser) : List Laser :=
  let aged := l.map ageLaser
  removeEach aged (aged.filter (fun e => e.duration ≤ 0))

/-- One frame of the numbers-level run loop as it affects the
resource-managed explosions: `update_effects()` (run-loop line 229) runs
first, then `_draw_frame → draw_effects` (line 676) draws every explosion
still in the collection.  Returns (post-frame collection, drawn list). -/
def lrmFrameExplosions (l : List Expl) : List Expl × List Expl :=
  let u := updateExplosions l
  (u, u)

/-- `draw_explosion` of `SS6.origional.py` (line 1084) mutates the
explosion while drawing: radius eases 10% toward `max_radius`. -/
def drawExplosionMut (e : Ss6Expl) : Ss6Expl :=
  { e with radius := e.radius + (e.maxRadius - e.radius) * (1/10) }

/-- `NumbersLevel._process_explosions`, legacy half (lines 679–684):
draw-then-decrement while duration > 0, remove (without drawing) once the
duration has reached 0.  Returns (drawn list, remaining list). -/
def processLegacyExpl : List Ss6Expl → List Ss6Expl × List Ss6Expl
  | [] => ([], [])
  | e :: rest =>
      if 0 < e.duration then
        let d := drawExplosionMut e
        let r := processLegacyExpl rest
        (d :: r.1, { d with duration := d.duration - 1 } :: r.2)
      else processLegacyExpl rest

/-- `NumbersLevel._process_lasers` (lines 662–671): non-flamethrower
lasers are drawn, every positive-duration laser is decremented, expired
lasers are removed without drawing.  Returns (drawn, remaining). -/
def processLegacyLasers : List LegacyLaser → List LegacyLaser × List LegacyLaser
  | [] => ([], [])
  | e :: rest =>
      if 0 < e.duration then
        let r := processLegacyLasers rest
        (if e.isFlame then r.1 else e :: r.1,
         { e with duration := e.duration - 1 } :: r.2)
      else processLegacyLasers rest

/-- The explosion dict of `LevelResourceManager.create_explosion`
(lines 108–117). -/
def newLrmExpl (x y : ℚ) (color : Color) (maxRadius : ℚ) (duration : ℤ)
    (t : ℚ) : Expl :=
  { x := x, y := y, radius := 10, color := color, maxRadius := maxRadius,
    duration := duration, startDuration := duration, createdTime := t }

/-- `LevelResourceManager.create_explosion` (lines 94–121), assuming the
manager is initialized; `none` models the `IndexError` of `pop(0)` on an
empty list (only reachable when the capacity is 0). -/
def lrmCreateExplosion (cap : ℕ) (x y : ℚ) (color : Color) (maxRadius : ℚ)
    (duration : ℤ) (t : ℚ) (l : List Expl) : Option (List Expl) :=
  if cap ≤ l.length then
    match l with
    | [] => none
    | _ :: tail => some (tail ++ [newLrmExpl x y color maxRadius duration t])
  else some (l ++ [newLrmExpl x y color maxRadius duration t])

/-- The explosion dict of the legacy `create_explosion`. -/
def newSs6Expl (x y : ℚ) (color : Color) (maxRadius : ℚ) (duration : ℤ) : Ss6Expl :=
  { x := x, y := y, radius := 10, color := color, maxRadius := maxRadius,
    duration := duration, startDuration := duration }

/-- Legacy `create_explosion` of `SS6.origional.py` (lines 1054–1077):
at capacity it removes the explosion with minimum remaining duration
(`min` by `duration`, then `list.remove`), then appends, and always bumps
the shake duration to at least 10.  `none` models the `ValueError` of
`min([])`. -/
def ss6CreateExplosion (maxExpl : ℕ) (x y : ℚ) (color : Color) (maxRadius : ℚ)
    (duration : ℤ) (l : List Ss6Expl) (shake : ℤ) : Option (List Ss6Expl × ℤ) :=
  let e := newSs6Expl x y color maxRadius duration
  if maxExpl ≤ l.length then
    match minByKey (fun ex => ex.duration) l with
    | none => none
    | some o => some (eraseFirst (fun ex => ex == o) l ++ [e], max shake 10)
  else some (l ++ [e], max shake 10)

/-! ### The removal loop removes exactly the expired effects -/

theorem removeEach_cons_of_ne {α : Type} [DecidableEq α] (p : α → Bool)
    (x : α) (r : List α) (hx : p x = false) (hr : ∀ e ∈ r, p e = true) :
    ∀ acc : List α, removeEach (x :: acc) r = x :: removeEach acc r := by
  induction r with
  | nil => intro acc; rfl
  | cons e es ih =>
      intro acc
      have hpe : p e = true := hr e (by simp)
      have hne : (x == e) = false := by
        cases hbe : x == e with
        | false => rfl
        | true =>
            exfalso
            have hxe : x = e := by simpa using hbe
            rw [hxe, hpe] at hx
            simp at hx
      have hstep : removeEach (x :: acc) (e :: es)
          = removeEach (eraseFirst (fun y => y == e) (x :: acc)) es := rfl
      rw [hstep]
      have : eraseFirst (fun y => y == e) (x :: acc)
          = x :: eraseFirst (fun y => y == e) acc := by
        simp [eraseFirst, hne]
      rw [this, ih (fun y hy => hr y (by simp [hy]))]
      rfl

/-- Removing, one at a time, the first value-equal occurrence of every
element that satisfies `p` from the very list they were collected from
leaves exactly the elements not satisfying `p`. -/
theorem removeEach_filter {α : Type} [DecidableEq α] (p : α → Bool) (l : List α) :
    removeEach l (l.filter p) = l.filter (fun x => !p x) := by
  induction l with
  | nil => rfl
  | cons x xs ih =>
      by_cases hx : p x = true
      · have hfil : (x :: xs).filter p = x :: xs.filter p := by simp [hx]
        have hstep : removeEach (x :: xs) (x :: xs.filter p)
            = removeEach (eraseFirst (fun y => y == x) (x :: xs)) (xs.filter p) := rfl
        have herase : eraseFirst (fun y => y == x) (x :: xs) = xs := by
          simp [eraseFirst]
        rw [hfil, hstep, herase, ih]
        simp [hx]
      · have hxf : p x = false := by
          cases hpx : p x with
          | false => rfl
          | true => exact absurd hpx hx
        have hfil : (x :: xs).filter p = xs.filter p := by simp [hxf]
        rw [hfil, removeEach_cons_of_ne p x (xs.filter p) hxf
          (fun e he => List.of_mem_filter he) xs, ih]
        simp [hxf]

/-- Aging precedes removal: the explosions surviving `update_effects` are
exactly the aged explosions with positive remaining duration. -/
theorem updateExplosions_eq (l : List Expl) :
    updateExplosions l = (l.map ageExpl).filter (fun e => 0 < e.duration) := by
  unfold updateExplosions
  rw [removeEach_filter (fun e : Expl => decide (e.duration ≤ 0)) (l.map ageExpl)]
  apply List.filter_congr
  intro x _
  simp [← decide_not, not_le]

/-- Aging precedes removal for the laser collection. -/
theorem updateLasers_eq (l : List Laser) :
    updateLasers l = (l.map ageLaser).filter (fun e => 0 < e.duration) := by
  unfold updateLasers
  rw [removeEach_filter (fun e : Laser => decide (e.duration ≤ 0)) (l.map ageLaser)]
  apply List.filter_congr
  intro x _
  simp [← decide_not, not_le]

theorem processLegacyExpl_eq (l : List Ss6Expl) :
    processLegacyExpl l =
      ((l.filter (fun x => 0 < x.duration)).map drawExplosionMut,
       (l.filter (fun x => 0 < x.duration)).map
         (fun x => { drawExplosionMut x with
                     duration := (drawExplosionMut x).duration - 1 })) := by
  induction l with
  | nil => rfl
  | cons e rest ih =>
      by_cases he : 0 < e.duration
      · simp [processLegacyExpl, he, ih]
      · simp [processLegacyExpl, he, ih]

theorem processLegacyLasers_eq (l : List LegacyLaser) :
    processLegacyLasers l =
      (l.filter (fun x => decide (0 < x.duration) && !x.isFlame),
       (l.filter (fun x => 0 < x.duration)).map
         (fun x => { x with duration := x.duration - 1 })) := by
  induction l with
  | nil => rfl
  | cons e rest ih =>
      by_cases he : 0 < e.duration
      · cases hf : e.isFlame with
        | false => simp [processLegacyLasers, he, hf, ih]
        | true => simp [processLegacyLasers, he, hf, ih]
      · simp [processLegacyLasers, he, ih]

/-! ### C7: effect aging/draw/removal ordering -/

def c7expl : Expl :=
  { x := 0, y := 0, radius := 10, color := (255, 0, 0), maxRadius := 270,
    duration := 1, startDuration := 30, createdTime := 0 }

/-- C7 counterexample: a resource-managed explosion whose duration reaches
zero this frame is removed by `update_effects` BEFORE the same frame's
`draw_effects`, so it is NOT drawn once more: with remaining duration 1 at
frame start, the frame's drawn list is empty.  This refutes the
draw-then-expire part of the claim for the `update_effects`-managed
collections. -/
theorem effect_not_drawn_counterexample :
    c7expl.duration = 1 ∧ (lrmFrameExplosions [c7expl]).2 = [] ∧
      (lrmFrameExplosions [c7expl]).1 = [] := by
  refine ⟨rfl, ?_, ?_⟩ <;>
  · show updateExplosions [c7expl] = []
    rw [updateExplosions_eq]
    simp [ageExpl, c7expl]

/-- C7 (amended): within `update_effects`, aging always precedes removal —
the surviving explosions/lasers are exactly the aged ones with positive
duration.  The legacy explosions/lasers of `_process_explosions` /
`_process_lasers` do obey draw-then-expire: an effect with positive
duration is drawn this frame and kept (decremented), and an effect whose
duration has reached zero is removed without being drawn.  The
resource-managed effects do NOT obey it: `update_effects` runs before
`draw_effects` in the frame, so an explosion whose duration reaches zero
this frame is absent from the frame's drawn list. -/
theorem effect_aging_and_draw_order
    (l : List Expl) (ll : List Laser)
    (e : Expl) (he : e.duration = 1)
    (l2 : List Ss6Expl) (e2 : Ss6Expl) (he2 : 0 < e2.duration) (hmem : e2 ∈ l2)
    (l3 : List LegacyLaser) :
    updateExplosions l = (l.map ageExpl).filter (fun x => 0 < x.duration) ∧
    updateLasers ll = (ll.map ageLaser).filter (fun x => 0 < x.duration) ∧
    ageExpl e ∉ (lrmFrameExplosions (e :: l)).2 ∧
    drawExplosionMut e2 ∈ (processLegacyExpl l2).1 ∧
    processLegacyExpl l2 =
      ((l2.filter (fun x => 0 < x.duration)).map drawExplosionMut,
       (l2.filter (fun x => 0 < x.duration)).map
         (fun x => { drawExplosionMut x with
                     duration := (drawExplosionMut x).duration - 1 })) ∧
    processLegacyLasers l3 =
      (l3.filter (fun x => decide (0 < x.duration) && !x.isFlame),
       (l3.filter (fun x => 0 < x.duration)).map
         (fun x => { x with duration := x.duration - 1 })) := by
  refine ⟨updateExplosions_eq l, updateLasers_eq ll, ?_, ?_,
    processLegacyExpl_eq l2, processLegacyLasers_eq l3⟩
  · intro hdrawn
    have hd : (lrmFrameExplosions (e :: l)).2 = updateExplosions (e :: l) := rfl
    rw [hd, updateExplosions_eq] at hdrawn
    have := List.of_mem_filter hdrawn
    have hzero : (ageExpl e).duration = 0 := by
      simp [ageExpl, he]
    rw [hzero] at this
    simp at this
  · rw [processLegacyExpl_eq]
    exact List.mem_map_of_mem drawExplosionMut (List.mem_filter.mpr ⟨hmem, by simpa⟩)

def c7ssExpl : Ss6Expl :=
  { x := 0, y := 0, radius := 10, color := (0, 255, 0), maxRadius := 270,
    duration := 3, startDuration := 30 }

/-- Witness for the amended C7 at a concrete input. -/
theorem effect_aging_and_draw_order_witness :
    ageExpl c7expl ∉ (lrmFrameExplosions (c7expl :: [])).2 :=
  (effect_aging_and_draw_order [] [] c7expl rfl [c7ssExpl] c7ssExpl (by decide)
    (by decide) []).2.2.1

/-! ### C8: explosion eviction policy -/

/-- C8: creating an explosion at capacity evicts exactly one explosion
before appending, so the collection never exceeds its capacity.
`LevelResourceManager.create_explosion` evicts the head of the list — the
oldest explosion, since the list is append-ordered (`pop(0)`); the legacy
`create_explosion` used by the colors level evicts the explosion with
minimum remaining duration and bumps the screen shake. -/
theorem explosion_eviction
    (cap : ℕ) (hcap : 1 ≤ cap) (l : List Expl) (hl : l.length ≤ cap)
    (x y : ℚ) (c : Color) (mr : ℚ) (d : ℤ) (t : ℚ)
    (m : ℕ) (l2 : List Ss6Expl) (hm : m ≤ l2.length)
    (x2 y2 : ℚ) (c2 : Color) (mr2 : ℚ) (d2 : ℤ) (sh : ℤ)
    (o : Ss6Expl) (hmin : minByKey (fun ex => ex.duration) l2 = some o) :
    (lrmCreateExplosion cap x y c mr d t l =
        some ((if cap ≤ l.length then l.tail else l) ++ [newLrmExpl x y c mr d t]) ∧
      ((if cap ≤ l.length then l.tail else l) ++ [newLrmExpl x y c mr d t]).length ≤ cap) ∧
    (ss6CreateExplosion m x2 y2 c2 mr2 d2 l2 sh =
        some (eraseFirst (fun ex => ex == o) l2 ++ [newSs6Expl x2 y2 c2 mr2 d2],
          max sh 10) ∧
      (∀ ex ∈ l2, o.duration ≤ ex.duration) ∧
      (eraseFirst (fun ex => ex == o) l2).length + 1 = l2.length) := by
  refine ⟨⟨?_, ?_⟩, ?_, minByKey_le _ _ _ hmin, ?_⟩
  · by_cases hful : cap ≤ l.length
    · rw [if_pos hful]
      cases l with
      | nil =>
          exfalso
          simp at hful
          omega
      | cons a tail =>
          have hful' : cap ≤ tail.length + 1 := by simpa using hful
          simp [lrmCreateExplosion, hful']
    · rw [if_neg hful]
      simp [lrmCreateExplosion, hful]
  · by_cases hful : cap ≤ l.length
    · have hlen : l.length = cap := le_antisymm hl hful
      rw [if_pos hful]
      cases l with
      | nil =>
          simp
          omega
      | cons a tail =>
          simp only [List.tail_cons, List.length_append, List.length_cons,
            List.length_nil]
          simp only [List.length_cons] at hlen
          omega
    · rw [if_neg hful]
      simp only [List.length_append, List.length_cons, List.length_nil]
      omega
  · simp [ss6CreateExplosion, hm, hmin]
  · exact length_eraseFirst_of_exists _ _ ⟨o, minByKey_mem _ _ _ hmin, by simp⟩

def c8lrmE : Expl :=
  { x := 5, y := 5, radius := 20, color := (0, 0, 255), maxRadius := 270,
    duration := 12, startDuration := 30, createdTime := 1 }

def c8ssE : Ss6Expl :=
  { x := 7, y := 7, radius := 15, color := (255, 255, 0), maxRadius := 270,
    duration := 4, startDuration := 30 }

/-- Witness for C8 at a concrete input. -/
theorem explosion_eviction_witness :
    (eraseFirst (fun ex => ex == c8ssE) [c8ssE]).length + 1 =
      ([c8ssE] : List Ss6Expl).length :=
  (explosion_eviction 1 (by decide) [c8lrmE] (by decide) 0 0 (255, 0, 0) 270 30 0
    1 [c8ssE] (by decide) 1 1 (0, 200, 0) 60 15 0 c8ssE (by decide)).2.2.2

/-! ## Checkpoint logic (`NumbersLevel._handle_checkpoint_logic`,
`src/levels/numbers_level.py` lines 496–524) -/

/-- The fields of `NumbersLevel` read or written by
`_handle_checkpoint_logic`. -/
structure CheckpointState where
  totalDestroyed : ℕ
  numbersDestroyed : ℕ
  overallDestroyed : ℕ
  checkpointWaiting : Bool
  checkpointDelayFrames : ℤ
  explosionsLen : ℕ
  lasersLen : ℕ
  flamethrowerCount : ℕ
  particlesConverging : Bool
  lastCheckpointTriggered : ℕ
  justCompletedLevel : Bool
  gameStarted : Bool
  running : Bool
deriving DecidableEq, Repr

/-- `_handle_checkpoint_logic`; `showResult` is the return value of the
external `checkpoint_manager.show_checkpoint_screen` collaborator. -/
def handleCheckpointLogic (showResult : Bool) (s : CheckpointState) : CheckpointState :=
  let s := { s with overallDestroyed := s.totalDestroyed + s.numbersDestroyed }
  if s.checkpointWaiting then
    if s.checkpointDelayFrames ≤ 0 ∧ s.explosionsLen ≤ 1 ∧ s.lasersLen ≤ 1 ∧
        s.flamethrowerCount ≤ 1 ∧ s.particlesConverging = false then
      let s := { s with checkpointWaiting := false, gameStarted := false }
      if showResult = false then { s with running := false }
      else { s with gameStarted := true }
    else { s with checkpointDelayFrames := s.checkpointDelayFrames - 1 }
  else if 0 < s.overallDestroyed ∧ s.overallDestroyed % 10 = 0 ∧
      s.lastCheckpointTriggered < s.overallDestroyed / 10 ∧
      s.justCompletedLevel = false then
    { s with lastCheckpointTriggered := s.overallDestroyed / 10,
             checkpointWaiting := true, checkpointDelayFrames := 60 }
  else s

/-- A checkpoint-pending transition: `checkpoint_waiting` flips from
false to true. -/
def checkpointTransition (s s2 : CheckpointState) : Prop :=
  s.checkpointWaiting = false ∧ s2.checkpointWaiting = true

instance (s s2 : CheckpointState) : Decidable (checkpointTransition s s2) :=
  inferInstanceAs (Decidable (_ ∧ _))

/-- One destruction followed by the per-frame checkpoint check: the
cumulative destroyed count increases by 1 per call (the claim's
hypothesis). -/
def destroyStep (s : CheckpointState) : CheckpointState :=
  handleCheckpointLogic true { s with numbersDestroyed := s.numbersDestroyed + 1 }

def checkpointInit : CheckpointState :=
  { totalDestroyed := 0, numbersDestroyed := 0, overallDestroyed := 0,
    checkpointWaiting := false, checkpointDelayFrames := 0, explosionsLen := 0,
    lasersLen := 0, flamethrowerCount := 0, particlesConverging := false,
    lastCheckpointTriggered := 0, justCompletedLevel := false,
    gameStarted := true, running := true }

/-- C4 counterexample: destroying once per call from a fresh state, the
10th destruction triggers a checkpoint-pending transition, but the 20th —
although the cumulative count 20 is a positive multiple of 10 — triggers
none, because the count-10 checkpoint is still pending (its ~60-frame
settle delay has not elapsed), so the `elif` trigger branch is never
evaluated.  The transition therefore does not occur "exactly when" the
count is a positive multiple of 10. -/
theorem checkpoint_missed_multiple_counterexample :
    checkpointTransition (destroyStep^[9] checkpointInit)
      (destroyStep^[10] checkpointInit) ∧
    (destroyStep^[20] checkpointInit).overallDestroyed = 20 ∧
    (0 < 20 ∧ 20 % 10 = 0) ∧
    ¬ checkpointTransition (destroyStep^[19] checkpointInit)
      (destroyStep^[20] checkpointInit) ∧
    (destroyStep^[20] checkpointInit).checkpointWaiting = true ∧
    (destroyStep^[20] checkpointInit).lastCheckpointTriggered = 1 := by
  decide

/-- C4 (amended): a checkpoint-pending transition occurs ONLY when the
cumulative destroyed count is a positive multiple of 10 whose tenth
exceeds the last-triggered threshold, no checkpoint is already pending,
and the level was not just completed; the trigger latches
`last_checkpoint_triggered`, the immediately following call cannot
transition again, and while the count stays at a latched multiple no
further transition occurs.  (A multiple reached while a checkpoint is
pending triggers nothing — see the counterexample.) -/
theorem checkpoint_transition_amended (r r2 : Bool) (s u : CheckpointState)
    (ht : checkpointTransition s (handleCheckpointLogic r s))
    (hlast : (u.totalDestroyed + u.numbersDestroyed) / 10 ≤ u.lastCheckpointTriggered) :
    0 < s.totalDestroyed + s.numbersDestroyed ∧
    (s.totalDestroyed + s.numbersDestroyed) % 10 = 0 ∧
    s.lastCheckpointTriggered < (s.totalDestroyed + s.numbersDestroyed) / 10 ∧
    s.justCompletedLevel = false ∧
    (handleCheckpointLogic r s).lastCheckpointTriggered =
      (s.totalDestroyed + s.numbersDestroyed) / 10 ∧
    ¬ checkpointTransition (handleCheckpointLogic r s)
      (handleCheckpointLogic r2 (handleCheckpointLogic r s)) ∧
    ¬ checkpointTransition u (handleCheckpointLogic r2 u) := by
  obtain ⟨hw, hw2⟩ := ht
  have hcond : 0 < s.totalDestroyed + s.numbersDestroyed ∧
      (s.totalDestroyed + s.numbersDestroyed) % 10 = 0 ∧
      s.lastCheckpointTriggered < (s.totalDestroyed + s.numbersDestroyed) / 10 ∧
      s.justCompletedLevel = false := by
    by_contra hnc
    have heq0 : handleCheckpointLogic r s =
        { s with overallDestroyed := s.totalDestroyed + s.numbersDestroyed } := by
      rw [handleCheckpointLogic]
      simp only [hw, Bool.false_eq_true, if_false, hnc, if_neg, not_false_iff]
    rw [heq0] at hw2
    simp only at hw2
    rw [hw] at hw2
    exact Bool.false_ne_true hw2
  have heq : handleCheckpointLogic r s =
      { s with overallDestroyed := s.totalDestroyed + s.numbersDestroyed,
               lastCheckpointTriggered := (s.totalDestroyed + s.numbersDestroyed) / 10,
               checkpointWaiting := true, checkpointDelayFrames := 60 } := by
    rw [handleCheckpointLogic]
    rw [if_neg (by rw [hw]; exact Bool.false_ne_true)]
    rw [if_pos hcond]
  refine ⟨hcond.1, hcond.2.1, hcond.2.2.1, hcond.2.2.2, by rw [heq], ?_, ?_⟩
  · intro ht2
    have hfalse := ht2.1
    rw [heq] at hfalse
    simp at hfalse
  · intro ht3
    obtain ⟨hw3, hw4⟩ := ht3
    by_cases hcnd : 0 < u.totalDestroyed + u.numbersDestroyed ∧
        (u.totalDestroyed + u.numbersDestroyed) % 10 = 0 ∧
        u.lastCheckpointTriggered < (u.totalDestroyed + u.numbersDestroyed) / 10 ∧
        u.justCompletedLevel = false
    · obtain ⟨_, _, hlt, _⟩ := hcnd
      omega
    · have hequ : handleCheckpointLogic r2 u =
          { u with overallDestroyed := u.totalDestroyed + u.numbersDestroyed } := by
        rw [handleCheckpointLogic]
        rw [if_neg (by rw [hw3]; exact Bool.false_ne_true)]
        rw [if_neg hcnd]
      rw [hequ] at hw4
      simp only at hw4
      rw [hw3] at hw4
      exact Bool.false_ne_true hw4

def c4s : CheckpointState := { checkpointInit with numbersDestroyed := 10 }

/-- Witness for the amended C4 at a concrete input. -/
theorem checkpoint_transition_amended_witness :
    (handleCheckpointLogic true c4s).lastCheckpointTriggered =
      (c4s.totalDestroyed + c4s.numbersDestroyed) / 10 :=
  (checkpoint_transition_amended true true c4s checkpointInit (by decide)
    (by decide)).2.2.2.2.1

/-! ## Falling-number physics (`NumbersLevel`, `src/levels/numbers_level.py`)

Python floats are rationals; `math.sqrt` is the explicit parameter
`sqrtQ` (the momentum and coincidence properties hold for every value of
the square root). -/

/-- A `pygame.Rect` (a point on the right/bottom edge does not collide). -/
structure RectQ where
  left : ℚ
  top : ℚ
  width : ℚ
  height : ℚ
deriving DecidableEq, Repr

/-- A falling-number dict (`_spawn_numbers`, lines 397–406). -/
structure NumObj where
  value : ℕ
  x : ℚ
  y : ℚ
  rect : RectQ
  size : ℚ
  dx : ℚ
  dy : ℚ
  canBounce : Bool
  mass : ℚ
deriving DecidableEq, Repr

/-- Position integration (`_update_numbers` lines 414–415). -/
def integrate (o : NumObj) : NumObj := { o with x := o.x + o.dx, y := o.y + o.dy }

/-- Bounce gate (lines 418–419): flips once `y` exceeds `height // 5`. -/
def enableBounce (h : ℕ) (o : NumObj) : NumObj :=
  if !o.canBounce && decide (((h / 5 : ℕ) : ℚ) < o.y) then { o with canBounce := true }
  else o

/-- Left/right wall handling (lines 424–430). -/
def bounceWallsX (w : ℕ) (o : NumObj) : NumObj :=
  if o.x ≤ 0 + o.size / 2 then
    { o with x := 0 + o.size / 2, dx := |o.dx| * (4/5) }
  else if (w : ℚ) - o.size / 2 ≤ o.x then
    { o with x := (w : ℚ) - o.size / 2, dx := -|o.dx| * (4/5) }
  else o

/-- Top/bottom wall handling (lines 432–444); `rPush` is the
`random.uniform(0.1, 0.3)` draw of the bottom-edge horizontal nudge. -/
def bounceWallsY (h w : ℕ) (rPush : ℚ) (o : NumObj) : NumObj :=
  if o.y ≤ 0 + o.size / 2 then
    { o with y := 0 + o.size / 2, dy := |o.dy| * (4/5) }
  else if (h : ℚ) - o.size / 2 ≤ o.y then
    let oa := { o with y := (h : ℚ) - o.size / 2, dy := -|o.dy| * (4/5) }
    let ob := { oa with dx := oa.dx * (4/5) }
    if ob.x < (w : ℚ) / 2 then { ob with dx := ob.dx + rPush }
    else { ob with dx := ob.dx - rPush }
  else o

/-- One physics step for one falling number (lines 413–444). -/
def updateNumberObj (w h : ℕ) (rPush : ℚ) (o : NumObj) : NumObj :=
  let o1 := enableBounce h (integrate o)
  if o1.canBounce then bounceWallsY h w rPush (bounceWallsX w o1) else o1

theorem bounceWallsX_keeps (w : ℕ) (o : NumObj) :
    (bounceWallsX w o).y = o.y ∧ (bounceWallsX w o).dy = o.dy ∧
      (bounceWallsX w o).size = o.size := by
  unfold bounceWallsX
  split_ifs <;> exact ⟨rfl, rfl, rfl⟩

theorem bounceWallsY_keeps (h w : ℕ) (r : ℚ) (o : NumObj) :
    (bounceWallsY h w r o).x = o.x ∧ (bounceWallsY h w r o).size = o.size := by
  unfold bounceWallsY
  split_ifs <;> first
  | exact ⟨rfl, rfl⟩
  | (dsimp only; split_ifs <;> exact ⟨rfl, rfl⟩)

theorem bounceWallsX_left (w : ℕ) (o : NumObj) (hl : o.x ≤ 0 + o.size / 2) :
    (bounceWallsX w o).x = 0 + o.size / 2 ∧
      (bounceWallsX w o).dx = |o.dx| * (4/5) := by
  unfold bounceWallsX
  rw [if_pos hl]
  exact ⟨rfl, rfl⟩

theorem bounceWallsX_right (w : ℕ) (o : NumObj) (hl : ¬ (o.x ≤ 0 + o.size / 2))
    (hr : (w : ℚ) - o.size / 2 ≤ o.x) :
    (bounceWallsX w o).x = (w : ℚ) - o.size / 2 ∧
      (bounceWallsX w o).dx = -|o.dx| * (4/5) := by
  unfold bounceWallsX
  rw [if_neg hl, if_pos hr]
  exact ⟨rfl, rfl⟩

theorem bounceWallsY_top (h w : ℕ) (r : ℚ) (o : NumObj)
    (ht : o.y ≤ 0 + o.size / 2) :
    (bounceWallsY h w r o).y = 0 + o.size / 2 ∧
      (bounceWallsY h w r o).dy = |o.dy| * (4/5) := by
  unfold bounceWallsY
  rw [if_pos ht]
  exact ⟨rfl, rfl⟩

theorem bounceWallsY_bottom (h w : ℕ) (r : ℚ) (o : NumObj)
    (ht : ¬ (o.y ≤ 0 + o.size / 2)) (hbm : (h : ℚ) - o.size / 2 ≤ o.y) :
    (bounceWallsY h w r o).y = (h : ℚ) - o.size / 2 ∧
      (bounceWallsY h w r o).dy = -|o.dy| * (4/5) := by
  unfold bounceWallsY
  rw [if_neg ht, if_pos hbm]
  dsimp only
  split_ifs <;> exact ⟨rfl, rfl⟩

theorem bounceWallsY_dx_of_miss (h w : ℕ) (r : ℚ) (o : NumObj)
    (hbm : ¬ ((h : ℚ) - o.size / 2 ≤ o.y)) :
    (bounceWallsY h w r o).dx = o.dx := by
  unfold bounceWallsY
  by_cases h1 : o.y ≤ 0 + o.size / 2
  · rw [if_pos h1]
  · rw [if_neg h1, if_neg hbm]

/-- With `can_bounce` already true, the update is the integration followed
by the two wall-bounce blocks. -/
theorem updateNumberObj_of_canBounce (w h : ℕ) (r : ℚ) (o : NumObj)
    (hb : o.canBounce = true) :
    updateNumberObj w h r o = bounceWallsY h w r (bounceWallsX w (integrate o)) := by
  unfold updateNumberObj enableBounce
  have h1 : (integrate o).canBounce = true := hb
  simp [h1]

def c3obj : NumObj :=
  { value := 7, x := 100, y := 500, rect := ⟨0, 0, 0, 0⟩, size := 240, dx := 1,
    dy := 0, canBounce := true, mass := 50 }

/-- C3 counterexample: a bouncing number that penetrates the left edge
while drifting AWAY from it (`dx > 0`, e.g. one spawned near the edge)
is clamped, its `dx` magnitude is scaled by 0.8, but the sign is NOT
flipped: the code sets `dx = abs(dx) * 0.8`, which only flips components
pointing toward the wall. -/
theorem bounce_sign_counterexample :
    c3obj.canBounce = true ∧
    c3obj.x + c3obj.dx ≤ 0 + c3obj.size / 2 ∧
    0 < c3obj.dx ∧
    (updateNumberObj 1200 800 (1/5) c3obj).x = 0 + c3obj.size / 2 ∧
    (updateNumberObj 1200 800 (1/5) c3obj).dx = (4/5) * c3obj.dx ∧
    0 < (updateNumberObj 1200 800 (1/5) c3obj).dx ∧
    (updateNumberObj 1200 800 (1/5) c3obj).dx ≠ -((4/5) * c3obj.dx) := by
  have heq := updateNumberObj_of_canBounce 1200 800 (1/5) c3obj rfl
  have hl' : (integrate c3obj).x ≤ 0 + (integrate c3obj).size / 2 := by
    norm_num [integrate, c3obj]
  obtain ⟨hx1, hdx1⟩ := bounceWallsX_left 1200 (integrate c3obj) hl'
  obtain ⟨hXy, hXdy, hXsize⟩ := bounceWallsX_keeps 1200 (integrate c3obj)
  obtain ⟨hYx, hYsize⟩ :=
    bounceWallsY_keeps 800 1200 (1/5) (bounceWallsX 1200 (integrate c3obj))
  have hnb' : ¬ ((800 : ℕ) : ℚ) - (bounceWallsX 1200 (integrate c3obj)).size / 2 ≤
      (bounceWallsX 1200 (integrate c3obj)).y := by
    rw [hXsize, hXy]
    norm_num [integrate, c3obj]
  have hux : (updateNumberObj 1200 800 (1/5) c3obj).x = 0 + c3obj.size / 2 := by
    rw [heq, hYx, hx1]
    norm_num [integrate, c3obj]
  have hudx : (updateNumberObj 1200 800 (1/5) c3obj).dx = 4/5 := by
    rw [heq, bounceWallsY_dx_of_miss 800 1200 (1/5) _ hnb', hdx1]
    norm_num [integrate, c3obj]
  refine ⟨rfl, by norm_num [c3obj], by norm_num [c3obj], hux, ?_, ?_, ?_⟩
  · rw [hudx]; norm_num [c3obj]
  · rw [hudx]; norm_num
  · rw [hudx]; norm_num [c3obj]

/-- C3 (amended): when a bouncing object's half-size penetrates a screen
edge during the update, its position is clamped to that edge and the
velocity component on that axis is set to point AWAY from the wall with
magnitude 0.8 × the pre-bounce magnitude (`±abs(v)·0.8`); the sign flips
iff the pre-bounce component pointed toward the wall.  (For the x-axis
the stated `dx` is the final one provided no bottom bounce also occurs,
since a bottom bounce additionally dampens and nudges `dx`.) -/
theorem bounce_amended (w h : ℕ) (r : ℚ) (o : NumObj) (hb : o.canBounce = true) :
    ((o.x + o.dx ≤ 0 + o.size / 2) →
      (updateNumberObj w h r o).x = 0 + o.size / 2 ∧
      (¬ ((h : ℚ) - o.size / 2 ≤ o.y + o.dy) →
        (updateNumberObj w h r o).dx = |o.dx| * (4/5))) ∧
    (¬ (o.x + o.dx ≤ 0 + o.size / 2) → ((w : ℚ) - o.size / 2 ≤ o.x + o.dx) →
      (updateNumberObj w h r o).x = (w : ℚ) - o.size / 2 ∧
      (¬ ((h : ℚ) - o.size / 2 ≤ o.y + o.dy) →
        (updateNumberObj w h r o).dx = -|o.dx| * (4/5))) ∧
    ((o.y + o.dy ≤ 0 + o.size / 2) →
      (updateNumberObj w h r o).y = 0 + o.size / 2 ∧
      (updateNumberObj w h r o).dy = |o.dy| * (4/5)) ∧
    (¬ (o.y + o.dy ≤ 0 + o.size / 2) → ((h : ℚ) - o.size / 2 ≤ o.y + o.dy) →
      (updateNumberObj w h r o).y = (h : ℚ) - o.size / 2 ∧
      (updateNumberObj w h r o).dy = -|o.dy| * (4/5)) ∧
    (o.dx < 0 → (o.x + o.dx ≤ 0 + o.size / 2) →
      ¬ ((h : ℚ) - o.size / 2 ≤ o.y + o.dy) →
      (updateNumberObj w h r o).dx = -(4/5) * o.dx) := by
  rw [updateNumberObj_of_canBounce w h r o hb]
  have hIx : (integrate o).x = o.x + o.dx := rfl
  have hIy : (integrate o).y = o.y + o.dy := rfl
  have hIsize : (integrate o).size = o.size := rfl
  have hIdx : (integrate o).dx = o.dx := rfl
  have hIdy : (integrate o).dy = o.dy := rfl
  obtain ⟨hXy, hXdy, hXsize⟩ := bounceWallsX_keeps w (integrate o)
  obtain ⟨hYx, hYsize⟩ := bounceWallsY_keeps h w r (bounceWallsX w (integrate o))
  refine ⟨?_, ?_, ?_, ?_, ?_⟩
  · intro hl
    have hl' : (integrate o).x ≤ 0 + (integrate o).size / 2 := by
      rw [hIx, hIsize]; exact hl
    obtain ⟨hx1, hdx1⟩ := bounceWallsX_left w (integrate o) hl'
    refine ⟨by rw [hYx, hx1, hIsize], ?_⟩
    intro hnb
    have hnb' : ¬ ((h : ℚ) - (bounceWallsX w (integrate o)).size / 2 ≤
        (bounceWallsX w (integrate o)).y) := by
      rw [hXsize, hXy, hIsize, hIy]; exact hnb
    rw [bounceWallsY_dx_of_miss h w r _ hnb', hdx1, hIdx]
  · intro hl hr2
    have hl' : ¬ ((integrate o).x ≤ 0 + (integrate o).size / 2) := by
      rw [hIx, hIsize]; exact hl
    have hr' : (w : ℚ) - (integrate o).size / 2 ≤ (integrate o).x := by
      rw [hIx, hIsize]; exact hr2
    obtain ⟨hx1, hdx1⟩ := bounceWallsX_right w (integrate o) hl' hr'
    refine ⟨by rw [hYx, hx1, hIsize], ?_⟩
    intro hnb
    have hnb' : ¬ ((h : ℚ) - (bounceWallsX w (integrate o)).size / 2 ≤
        (bounceWallsX w (integrate o)).y) := by
      rw [hXsize, hXy, hIsize, hIy]; exact hnb
    rw [bounceWallsY_dx_of_miss h w r _ hnb', hdx1, hIdx]
  · intro ht
    have ht' : (bounceWallsX w (integrate o)).y ≤
        0 + (bounceWallsX w (integrate o)).size / 2 := by
      rw [hXy, hXsize, hIy, hIsize]; exact ht
    obtain ⟨hy1, hdy1⟩ := bounceWallsY_top h w r _ ht'
    exact ⟨by rw [hy1, hXsize, hIsize], by rw [hdy1, hXdy, hIdy]⟩
  · intro ht hbm
    have ht' : ¬ ((bounceWallsX w (integrate o)).y ≤
        0 + (bounceWallsX w (integrate o)).size / 2) := by
      rw [hXy, hXsize, hIy, hIsize]; exact ht
    have hbm' : (h : ℚ) - (bounceWallsX w (integrate o)).size / 2 ≤
        (bounceWallsX w (integrate o)).y := by
      rw [hXy, hXsize, hIy, hIsize]; exact hbm
    obtain ⟨hy1, hdy1⟩ := bounceWallsY_bottom h w r _ ht' hbm'
    exact ⟨by rw [hy1, hXsize, hIsize], by rw [hdy1, hXdy, hIdy]⟩
  · intro hneg hl hnb
    have hl' : (integrate o).x ≤ 0 + (integrate o).size / 2 := by
      rw [hIx, hIsize]; exact hl
    obtain ⟨hx1, hdx1⟩ := bounceWallsX_left w (integrate o) hl'
    have hnb' : ¬ ((h : ℚ) - (bounceWallsX w (integrate o)).size / 2 ≤
        (bounceWallsX w (integrate o)).y) := by
      rw [hXsize, hXy, hIsize, hIy]; exact hnb
    rw [bounceWallsY_dx_of_miss h w r _ hnb', hdx1, hIdx, abs_of_neg hneg]
    ring

/-- Witness for the amended C3 at a concrete input. -/
theorem bounce_amended_witness :
    (updateNumberObj 1200 800 (1/5) c3obj).x = 0 + c3obj.size / 2 :=
  ((bounce_amended 1200 800 (1/5) c3obj rfl).1 (by norm_num [c3obj])).1

/-- The pairwise collision body of `_handle_number_collisions`
(lines 458–494): broad-phase check on the squared distance (coincident
pairs, `distance_sq = 0`, are skipped), then mass-weighted separation and
an impulse scaled by the 0.85 restitution factor. -/
def collideNumbersBody (sqrtQ : ℚ → ℚ) (o1 o2 : NumObj) : NumObj × NumObj :=
  let dx := o2.x - o1.x
  let dy := o2.y - o1.y
  let distanceSq := dx * dx + dy * dy
  let minDistance := o1.size / (9/5) + o2.size / (9/5)
  let distance := sqrtQ distanceSq
  let nx := dx / distance
  let ny := dy / distance
  let overlap := minDistance - distance
  let totalMass := o1.mass + o2.mass
  let pushFactor := overlap / totalMass
  let o1a := { o1 with x := o1.x - nx * pushFactor * o2.mass,
                       y := o1.y - ny * pushFactor * o2.mass }
  let o2a := { o2 with x := o2.x + nx * pushFactor * o1.mass,
                       y := o2.y + ny * pushFactor * o1.mass }
  let dvx := o1a.dx - o2a.dx
  let dvy := o1a.dy - o2a.dy
  let dotProduct := dvx * nx + dvy * ny
  let impulse := 2 * dotProduct / totalMass
  ({ o1a with dx := o1a.dx - impulse * o2.mass * nx * (17/20),
              dy := o1a.dy - impulse * o2.mass * ny * (17/20) },
   { o2a with dx := o2a.dx + impulse * o1.mass * nx * (17/20),
              dy := o2a.dy + impulse * o1.mass * ny * (17/20) })

def collideNumbers (sqrtQ : ℚ → ℚ) (o1 o2 : NumObj) : NumObj × NumObj :=
  let dx := o2.x - o1.x
  let dy := o2.y - o1.y
  let distanceSq := dx * dx + dy * dy
  let minDistance := o1.size / (9/5) + o2.size / (9/5)
  if distanceSq < minDistance * minDistance ∧ 0 < distanceSq then
    collideNumbersBody sqrtQ o1 o2
  else (o1, o2)

/-- C2: for any pair processed by the collision handler (whatever value
the square root takes), the mass-weighted velocity changes are equal and
opposite on each axis: `m1·Δv1 = −m2·Δv2`, with the 0.85 restitution
factor applied symmetrically. -/
theorem collision_momentum_symmetry (sqrtQ : ℚ → ℚ) (o1 o2 : NumObj) :
    o1.mass * ((collideNumbers sqrtQ o1 o2).1.dx - o1.dx) =
      -(o2.mass * ((collideNumbers sqrtQ o1 o2).2.dx - o2.dx)) ∧
    o1.mass * ((collideNumbers sqrtQ o1 o2).1.dy - o1.dy) =
      -(o2.mass * ((collideNumbers sqrtQ o1 o2).2.dy - o2.dy)) := by
  by_cases hc : (o2.x - o1.x) * (o2.x - o1.x) + (o2.y - o1.y) * (o2.y - o1.y) <
      (o1.size / (9/5) + o2.size / (9/5)) * (o1.size / (9/5) + o2.size / (9/5)) ∧
      0 < (o2.x - o1.x) * (o2.x - o1.x) + (o2.y - o1.y) * (o2.y - o1.y)
  · have heq : collideNumbers sqrtQ o1 o2 = collideNumbersBody sqrtQ o1 o2 := by
      unfold collideNumbers
      rw [if_pos hc]
    rw [heq]
    unfold collideNumbersBody
    constructor <;> (dsimp only; ring)
  · have heq : collideNumbers sqrtQ o1 o2 = (o1, o2) := by
      unfold collideNumbers
      rw [if_neg hc]
    rw [heq]
    constructor <;> (dsimp only; ring)

/-! ## Colors-level dots (`src/levels/colors_level.py`) -/

/-- A dot dict (creation at lines 230–236). -/
structure Dot where
  x : ℚ
  y : ℚ
  dx : ℚ
  dy : ℚ
  radius : ℚ
  color : Color
  target : Bool
  alive : Bool
deriving DecidableEq, Repr

/-- `ColorsLevel._resolve_collision` (lines 474–521): fallback normal
(1, 0) when the distance is 0, separation plus a 0.8-damped velocity swap
only when the pair approaches along the normal.  The third component is
the number of collision particles requested from the particle manager
(their parameters are random draws). -/
def resolveCollision (dot1 dot2 : Dot) (dx dy distance : ℚ) : Dot × Dot × ℕ :=
  let nx := if 0 < distance then dx / distance else 1
  let ny := if 0 < distance then dy / distance else 0
  let dvx := dot1.dx - dot2.dx
  let dvy := dot1.dy - dot2.dy
  let velocityAlongNormal := dvx * nx + dvy * ny
  if velocityAlongNormal < 0 then
    let overlap := (dot1.radius + dot2.radius) - distance
    let d1 := { dot1 with x := dot1.x + overlap / 2 * nx,
                          y := dot1.y + overlap / 2 * ny,
                          dx := dot2.dx * (4/5), dy := dot2.dy * (4/5) }
    let d2 := { dot2 with x := dot2.x - overlap / 2 * nx,
                          y := dot2.y - overlap / 2 * ny,
                          dx := dot1.dx * (4/5), dy := dot1.dy * (4/5) }
    (d1, d2, 3)
  else (dot1, dot2, 0)

/-- The pair check of `_handle_dot_collisions` (lines 458–472) for two
alive dots: `math.hypot` is `sqrtQ` of the sum of squares; any pair with
distance below the radius sum — including coincident pairs, distance 0 —
is passed to `_resolve_collision`. -/
def dotCollisionPair (sqrtQ : ℚ → ℚ) (dot1 dot2 : Dot) : Dot × Dot × ℕ :=
  let dx := dot1.x - dot2.x
  let dy := dot1.y - dot2.y
  let distance := sqrtQ (dx * dx + dy * dy)
  if distance < dot1.radius + dot2.radius then
    resolveCollision dot1 dot2 dx dy distance
  else (dot1, dot2, 0)

def c5dot1 : Dot :=
  { x := 100, y := 100, dx := -1, dy := 0, radius := 20, color := (255, 0, 0),
    target := true, alive := true }

def c5dot2 : Dot :=
  { x := 100, y := 100, dx := 1, dy := 0, radius := 20, color := (0, 0, 255),
    target := false, alive := true }

/-- C5 counterexample: two exactly coincident colors-level dots are NOT
treated as no-collision: `_resolve_collision` uses the fallback normal
(1, 0) and, since they approach (`dvx = -2 < 0`), displaces dot 1 by half
the radius sum and swaps the damped velocities.  (`sqrtQ = id` is exact
here: the only square root taken is of 0.) -/
theorem coincident_dots_counterexample :
    c5dot1.x = c5dot2.x ∧ c5dot1.y = c5dot2.y ∧
    (dotCollisionPair id c5dot1 c5dot2).1.x = 120 ∧
    (dotCollisionPair id c5dot1 c5dot2).1.dx = 4/5 ∧
    (dotCollisionPair id c5dot1 c5dot2).1 ≠ c5dot1 := by
  have heval : dotCollisionPair id c5dot1 c5dot2 =
      ({ c5dot1 with x := 120, dx := 4/5, dy := 0 },
       { c5dot2 with x := 80, dx := -(4/5), dy := 0 }, 3) := by
    unfold dotCollisionPair resolveCollision
    norm_num [c5dot1, c5dot2]
  refine ⟨rfl, rfl, by rw [heval], by rw [heval], ?_⟩
  rw [heval]
  intro hcontra
  have := congrArg Dot.x hcontra
  norm_num [c5dot1] at this

/-- C5 (amended): coincident pairs are treated as no-collision in the
numbers level (the `distance_sq > 0` guard skips them, both objects
unchanged), and no division by zero occurs in either handler (the colors
resolver substitutes the fallback normal (1, 0) instead of dividing); but
the colors level does NOT skip coincident pairs: when the pair approaches
along the fallback normal (`dvx < 0`) it applies the separation
displacement and the 0.8-damped velocity swap; only a non-approaching
coincident pair is left unchanged. -/
theorem coincident_pairs_amended (sqrtQ : ℚ → ℚ) (h0 : sqrtQ 0 = 0)
    (o1 o2 : NumObj) (hx : o2.x = o1.x) (hy : o2.y = o1.y)
    (d1 d2 : Dot) (hdx : d1.x = d2.x) (hdy : d1.y = d2.y)
    (hr : 0 < d1.radius + d2.radius) :
    collideNumbers sqrtQ o1 o2 = (o1, o2) ∧
    dotCollisionPair sqrtQ d1 d2 = resolveCollision d1 d2 0 0 0 ∧
    (¬ (d1.dx - d2.dx < 0) → resolveCollision d1 d2 0 0 0 = (d1, d2, 0)) ∧
    (d1.dx - d2.dx < 0 →
      (resolveCollision d1 d2 0 0 0).1.x = d1.x + (d1.radius + d2.radius) / 2 ∧
      (resolveCollision d1 d2 0 0 0).1.dx = d2.dx * (4/5) ∧
      (resolveCollision d1 d2 0 0 0).2.1.dx = d1.dx * (4/5)) := by
  refine ⟨?_, ?_, ?_, ?_⟩
  · unfold collideNumbers
    rw [hx, hy]
    simp
  · unfold dotCollisionPair
    rw [hdx, hdy]
    simp only [sub_self, mul_zero, zero_mul, add_zero, h0]
    rw [if_pos hr]
  · intro hnv
    have hnv' : ¬ ((d1.dx - d2.dx) * (if (0:ℚ) < 0 then (0:ℚ) / 0 else 1) +
        (d1.dy - d2.dy) * (if (0:ℚ) < 0 then (0:ℚ) / 0 else 0) < 0) := by
      simp only [lt_irrefl, if_false, ite_false, mul_one, mul_zero, add_zero]
      exact hnv
    unfold resolveCollision
    rw [if_neg hnv']
  · intro hv
    have hv' : (d1.dx - d2.dx) * (if (0:ℚ) < 0 then (0:ℚ) / 0 else 1) +
        (d1.dy - d2.dy) * (if (0:ℚ) < 0 then (0:ℚ) / 0 else 0) < 0 := by
      simp only [lt_irrefl, if_false, ite_false, mul_one, mul_zero, add_zero]
      exact hv
    unfold resolveCollision
    rw [if_pos hv']
    refine ⟨?_, by dsimp only, ?_⟩
    · dsimp only
      simp
    · dsimp only

def c5numA : NumObj :=
  { value := 1, x := 50, y := 60, rect := ⟨0, 0, 0, 0⟩, size := 240, dx := 1,
    dy := 1, canBounce := false, mass := 40 }

def c5numB : NumObj :=
  { value := 2, x := 50, y := 60, rect := ⟨0, 0, 0, 0⟩, size := 240, dx := -1,
    dy := 1, canBounce := false, mass := 60 }

/-- Witness for the amended C5 at a concrete input. -/
theorem coincident_pairs_amended_witness :
    collideNumbers id c5numA c5numB = (c5numA, c5numB) :=
  (coincident_pairs_amended id rfl c5numA c5numB rfl rfl c5dot1 c5dot2 rfl rfl
    (by norm_num [c5dot1, c5dot2])).1

/-! ## Colors-level target switching (`ColorsLevel._destroy_target_dot` and
`ColorsLevel._switch_target_color`, lines 354–407) -/

/-- The `ghost_notification` dict (its `text` is the colour name at
`textIdx` in `color_names`). -/
structure GhostNote where
  color : Color
  duration : ℤ
  alpha : ℤ
  radius : ℚ
  textIdx : ℕ
deriving DecidableEq, Repr

/-- The fields of `ColorsLevel` touched by dot destruction and colour
switching; `explosions`/`shakeDuration` are the globals shared with the
legacy `create_explosion` passed in by `SS6.origional.py`. -/
structure ColorsState where
  dots : List Dot
  colorsList : List Color
  usedColors : List ℕ
  colorIdx : ℕ
  motherColor : Color
  currentColorDotsDestroyed : ℕ
  totalDotsDestroyed : ℕ
  checkpointTrigger : ℕ
  targetDotsLeft : ℤ
  score : ℕ
  overallDestroyed : ℕ
  dotsBeforeCheckpoint : ℤ
  ghost : Option GhostNote
  running : Bool
  explosions : List Ss6Expl
  shakeDuration : ℤ
deriving DecidableEq, Repr

/-- The `available_colors` comprehension of `_switch_target_color`
(line 377): colour indices not yet in `used_colors`. -/
def availableColors (s : ColorsState) : List ℕ :=
  (List.range s.colorsList.length).filter (fun i => decide (i ∉ s.usedColors))

/-- `ColorsLevel._switch_target_color` (lines 374–407); `choice` models
`random.choice` (any function returning an element of its argument). -/
def switchTargetColor (choice : List ℕ → ℕ) (s : ColorsState) : ColorsState :=
  let available := availableColors s
  let used0 := if available.isEmpty then [s.colorIdx] else s.usedColors
  let available2 :=
    if available.isEmpty then
      (List.range s.colorsList.length).filter (fun i => decide (i ∉ used0))
    else available
  let idx := choice available2
  let mother := s.colorsList.getD idx (0, 0, 0)
  let newDots := s.dots.map
    (fun d => if d.alive then { d with target := d.color == mother } else d)
  { s with usedColors := used0 ++ [idx], colorIdx := idx, motherColor := mother,
           currentColorDotsDestroyed := 0,
           ghost := some { color := mother, duration := 100, alpha := 255,
                           radius := 150, textIdx := idx },
           dots := newDots,
           targetDotsLeft := (newDots.countP (fun d => d.target && d.alive) : ℤ) }

/-- `ColorsLevel._handle_checkpoint` (lines 409–431); `res` is the result
of the external checkpoint screen. -/
def colorsHandleCheckpoint (res : Bool) (s : ColorsState) : ColorsState :=
  let s := { s with dotsBeforeCheckpoint := s.targetDotsLeft }
  if res = false then { s with running := false }
  else { s with targetDotsLeft := s.dotsBeforeCheckpoint,
                ghost := some { color := s.motherColor, duration := 100,
                                alpha := 255, radius := 150,
                                textIdx := s.colorIdx } }

/-- `ColorsLevel._destroy_target_dot` (lines 354–372): kill the dot,
bump the counters and score, create an explosion via the legacy
`create_explosion`, switch the target colour when the per-colour count
reaches 5, then check the checkpoint trigger.  `none` propagates the
(empty-at-capacity) failure of the legacy explosion creation. -/
def destroyTargetDot (choice : List ℕ → ℕ) (chkRes : Bool) (maxExpl : ℕ)
    (i : ℕ) (s : ColorsState) : Option ColorsState :=
  match s.dots.get? i with
  | none => none
  | some dot =>
      let s1 := { s with dots := s.dots.set i { dot with alive := false },
                         targetDotsLeft := s.targetDotsLeft - 1,
                         score := s.score + 10,
                         overallDestroyed := s.overallDestroyed + 1,
                         currentColorDotsDestroyed := s.currentColorDotsDestroyed + 1,
                         totalDotsDestroyed := s.totalDotsDestroyed + 1 }
      match ss6CreateExplosion maxExpl dot.x dot.y dot.color 60 15
          s1.explosions s1.shakeDuration with
      | none => none
      | some ls =>
          let s2 := { s1 with explosions := ls.1, shakeDuration := ls.2 }
          let s3 := if 5 ≤ s2.currentColorDotsDestroyed
            then switchTargetColor choice s2 else s2
          if s3.totalDotsDestroyed % s3.checkpointTrigger = 0 then
            some (colorsHandleCheckpoint chkRes s3)
          else some s3

theorem switchTargetColor_spec (choice : List ℕ → ℕ)
    (hc : ∀ l : List ℕ, l ≠ [] → choice l ∈ l) (s : ColorsState)
    (havail : availableColors s ≠ []) :
    (switchTargetColor choice s).colorIdx ∉ s.usedColors ∧
    (switchTargetColor choice s).colorIdx < s.colorsList.length ∧
    (switchTargetColor choice s).currentColorDotsDestroyed = 0 ∧
    (switchTargetColor choice s).motherColor =
      s.colorsList.getD (switchTargetColor choice s).colorIdx (0, 0, 0) ∧
    (switchTargetColor choice s).dots = s.dots.map
      (fun d => if d.alive then
        { d with target := d.color == (switchTargetColor choice s).motherColor }
        else d) ∧
    (switchTargetColor choice s).totalDotsDestroyed = s.totalDotsDestroyed ∧
    (switchTargetColor choice s).checkpointTrigger = s.checkpointTrigger := by
  have hie : (availableColors s).isEmpty = false := by
    cases hemp : (availableColors s).isEmpty
    · rfl
    · exact absurd (List.isEmpty_iff.mp hemp) havail
  have hidx := hc _ havail
  have hidx2 : choice (availableColors s) ∈
      (List.range s.colorsList.length).filter (fun i => decide (i ∉ s.usedColors)) := hidx
  obtain ⟨hrange, hdec⟩ := List.mem_filter.mp hidx2
  have hswitch : switchTargetColor choice s = { s with
      usedColors := s.usedColors ++ [choice (availableColors s)],
      colorIdx := choice (availableColors s),
      motherColor := s.colorsList.getD (choice (availableColors s)) (0, 0, 0),
      currentColorDotsDestroyed := 0,
      ghost := some { color := s.colorsList.getD (choice (availableColors s)) (0, 0, 0),
                      duration := 100, alpha := 255, radius := 150,
                      textIdx := choice (availableColors s) },
      dots := s.dots.map (fun d => if d.alive then
        { d with target := d.color == s.colorsList.getD (choice (availableColors s)) (0, 0, 0) }
        else d),
      targetDotsLeft := ((s.dots.map (fun d => if d.alive then
        { d with target := d.color == s.colorsList.getD (choice (availableColors s)) (0, 0, 0) }
        else d)).countP (fun d => d.target && d.alive) : ℤ) } := by
    unfold switchTargetColor
    simp only [hie, Bool.false_eq_true, if_false, ite_false]
  refine ⟨?_, ?_, ?_, ?_, ?_, ?_, ?_⟩
  · rw [hswitch]
    simpa using hdec
  · rw [hswitch]
    simpa using List.mem_range.mp hrange
  · rw [hswitch]
  · rw [hswitch]
  · rw [hswitch]
  · rw [hswitch]
  · rw [hswitch]

theorem colorsHandleCheckpoint_keeps (res : Bool) (s : ColorsState) :
    (colorsHandleCheckpoint res s).colorIdx = s.colorIdx ∧
    (colorsHandleCheckpoint res s).motherColor = s.motherColor ∧
    (colorsHandleCheckpoint res s).currentColorDotsDestroyed =
      s.currentColorDotsDestroyed ∧
    (colorsHandleCheckpoint res s).dots = s.dots := by
  unfold colorsHandleCheckpoint
  split_ifs <;> exact ⟨rfl, rfl, rfl, rfl⟩

/-- The state of `_destroy_target_dot` after the field mutations and the
explosion creation, before the colour-switch check (proof abbreviation). -/
def destroyedBase (i : ℕ) (dot : Dot) (s : ColorsState) : ColorsState :=
  { s with dots := s.dots.set i { dot with alive := false },
           targetDotsLeft := s.targetDotsLeft - 1,
           score := s.score + 10,
           overallDestroyed := s.overallDestroyed + 1,
           currentColorDotsDestroyed := s.currentColorDotsDestroyed + 1,
           totalDotsDestroyed := s.totalDotsDestroyed + 1,
           explosions := s.explosions ++ [newSs6Expl dot.x dot.y dot.color 60 15],
           shakeDuration := max s.shakeDuration 10 }

/-- C9: when the per-colour destroyed count reaches 5 (counter 4, one more
destruction) and unused colours remain, a colour switch occurs: the new
mother-colour index is outside `used_colors` and inside the palette,
`current_color_dots_destroyed` resets to 0, the mother colour is the
palette entry at the new index, and every alive dot's `target` flag equals
the equality of its colour with the new mother colour. -/
theorem color_switch_on_fifth
    (choice : List ℕ → ℕ) (hc : ∀ l : List ℕ, l ≠ [] → choice l ∈ l)
    (chkRes : Bool) (maxExpl : ℕ) (i : ℕ) (s : ColorsState) (dot : Dot)
    (hdot : s.dots.get? i = some dot)
    (hcur : s.currentColorDotsDestroyed = 4)
    (havail : availableColors s ≠ [])
    (hcap : s.explosions.length < maxExpl)
    (s2 : ColorsState) (hres : destroyTargetDot choice chkRes maxExpl i s = some s2)
    (j : ℕ) (d : Dot) (hj : s2.dots.get? j = some d) (hal : d.alive = true) :
    s2.colorIdx ∉ s.usedColors ∧
    s2.colorIdx < s.colorsList.length ∧
    s2.currentColorDotsDestroyed = 0 ∧
    s2.motherColor = s.colorsList.getD s2.colorIdx (0, 0, 0) ∧
    d.target = (d.color == s2.motherColor) := by
  have hexp : ss6CreateExplosion maxExpl dot.x dot.y dot.color 60 15
      s.explosions s.shakeDuration =
      some (s.explosions ++ [newSs6Expl dot.x dot.y dot.color 60 15],
        max s.shakeDuration 10) := by
    unfold ss6CreateExplosion
    rw [if_neg (not_le.mpr hcap)]
  have hred : destroyTargetDot choice chkRes maxExpl i s =
      if (switchTargetColor choice (destroyedBase i dot s)).totalDotsDestroyed %
          (switchTargetColor choice (destroyedBase i dot s)).checkpointTrigger = 0
      then some (colorsHandleCheckpoint chkRes
        (switchTargetColor choice (destroyedBase i dot s)))
      else some (switchTargetColor choice (destroyedBase i dot s)) := by
    unfold destroyTargetDot destroyedBase
    simp only [hdot, hexp]
    rw [if_pos (show 5 ≤ s.currentColorDotsDestroyed + 1 by omega)]
  have havail2 : availableColors (destroyedBase i dot s) ≠ [] := havail
  obtain ⟨ha1, ha2, ha3, ha4, ha5, ha6, ha7⟩ :=
    switchTargetColor_spec choice hc (destroyedBase i dot s) havail2
  rw [hred] at hres
  have hmain : s2.colorIdx = (switchTargetColor choice (destroyedBase i dot s)).colorIdx ∧
      s2.motherColor = (switchTargetColor choice (destroyedBase i dot s)).motherColor ∧
      s2.currentColorDotsDestroyed =
        (switchTargetColor choice (destroyedBase i dot s)).currentColorDotsDestroyed ∧
      s2.dots = (switchTargetColor choice (destroyedBase i dot s)).dots := by
    by_cases hchk : (switchTargetColor choice (destroyedBase i dot s)).totalDotsDestroyed %
        (switchTargetColor choice (destroyedBase i dot s)).checkpointTrigger = 0
    · rw [if_pos hchk] at hres
      obtain ⟨hk1, hk2, hk3, hk4⟩ := colorsHandleCheckpoint_keeps chkRes
        (switchTargetColor choice (destroyedBase i dot s))
      have hs2 : s2 = colorsHandleCheckpoint chkRes
          (switchTargetColor choice (destroyedBase i dot s)) :=
        (Option.some.inj hres).symm
      rw [hs2]
      exact ⟨hk1, hk2, hk3, hk4⟩
    · rw [if_neg hchk] at hres
      have hs2 : s2 = switchTargetColor choice (destroyedBase i dot s) :=
        (Option.some.inj hres).symm
      rw [hs2]
      exact ⟨rfl, rfl, rfl, rfl⟩
  obtain ⟨hm1, hm2, hm3, hm4⟩ := hmain
  refine ⟨?_, ?_, ?_, ?_, ?_⟩
  · rw [hm1]
    exact ha1
  · rw [hm1]
    exact ha2
  · rw [hm3]
    exact ha3
  · rw [hm2, hm1]
    exact ha4
  · rw [hm4, ha5] at hj
    have hj2 : ((destroyedBase i dot s).dots.get? j).map
        (fun od => if od.alive then
          { od with target := od.color ==
              (switchTargetColor choice (destroyedBase i dot s)).motherColor }
          else od) = some d := by
      rw [← hj, List.get?_map]
    cases hod : (destroyedBase i dot s).dots.get? j with
    | none =>
        rw [hod] at hj2
        exact Option.noConfusion hj2
    | some od =>
        rw [hod] at hj2
        have hj3 := Option.some.inj hj2
        dsimp only at hj3
        cases hoal : od.alive with
        | true =>
            rw [hoal] at hj3
            simp only [if_true] at hj3
            rw [← hj3, hm2]
        | false =>
            rw [hoal] at hj3
            simp only [Bool.false_eq_true, if_false] at hj3
            rw [← hj3] at hal
            rw [hoal] at hal
            exact Bool.noConfusion hal

def c9choice : List ℕ → ℕ := fun l => l.headD 0

def c9state : ColorsState :=
  { dots := [⟨10, 10, 1, 0, 15, (255, 0, 0), true, true⟩,
             ⟨20, 20, 0, 1, 15, (0, 0, 255), false, true⟩],
    colorsList := [(0, 0, 255), (255, 0, 0)],
    usedColors := [1],
    colorIdx := 1,
    motherColor := (255, 0, 0),
    currentColorDotsDestroyed := 4,
    totalDotsDestroyed := 7,
    checkpointTrigger := 10,
    targetDotsLeft := 1,
    score := 40, overallDestroyed := 7, dotsBeforeCheckpoint := 0,
    ghost := none, running := true, explosions := [], shakeDuration := 0 }

def c9result : ColorsState :=
  { dots := [⟨10, 10, 1, 0, 15, (255, 0, 0), true, false⟩,
             ⟨20, 20, 0, 1, 15, (0, 0, 255), true, true⟩],
    colorsList := [(0, 0, 255), (255, 0, 0)],
    usedColors := [1, 0],
    colorIdx := 0,
    motherColor := (0, 0, 255),
    currentColorDotsDestroyed := 0,
    totalDotsDestroyed := 8,
    checkpointTrigger := 10,
    targetDotsLeft := 1,
    score := 50, overallDestroyed := 8, dotsBeforeCheckpoint := 0,
    ghost := some { color := (0, 0, 255), duration := 100, alpha := 255,
                    radius := 150, textIdx := 0 },
    running := true,
    explosions := [{ x := 10, y := 10, radius := 10, color := (255, 0, 0),
                     maxRadius := 60, duration := 15, startDuration := 15 }],
    shakeDuration := 10 }

def c9resultDot : Dot := ⟨20, 20, 0, 1, 15, (0, 0, 255), true, true⟩

/-- Witness for C9 at a concrete destruction. -/
theorem color_switch_on_fifth_witness :
    c9resultDot.target = (c9resultDot.color == c9result.motherColor) :=
  (color_switch_on_fifth c9choice
    (by
      intro l hl
      cases l with
      | nil => exact absurd rfl hl
      | cons a t => exact List.mem_cons_self a t)
    true 5 0 c9state ⟨10, 10, 1, 0, 15, (255, 0, 0), true, true⟩
    rfl rfl (by decide) (by decide) c9result rfl 1 c9resultDot rfl rfl).2.2.2.2

/-! ## Click handling on non-target objects

`NumbersLevel._handle_click` (`numbers_level.py` lines 338–390) and the
letter click branch of `game_loop` (`SS6.origional.py` lines 368–416).
Letter values are strings in the source; we model values of both kinds as
natural-number codes, which preserves the only operation used on them
(equality with the current target). -/

/-- `pygame.Rect.collidepoint`: the point is inside when it lies within
the left/top edge (inclusive) and the right/bottom edge (exclusive). -/
def collidepoint (r : RectQ) (px py : ℚ) : Bool :=
  decide (r.left ≤ px) && decide (px < r.left + r.width) &&
  decide (r.top ≤ py) && decide (py < r.top + r.height)

/-- One object's update in `apply_explosion_effect`
(`level_resource_manager.py` lines 324–338, identically
`SS6.origional.py` lines 970–982): push away from the center when
strictly inside the radius and not exactly at the center.  `sqrtQ`
stands for `math.sqrt`. -/
def pushObj (sqrtQ : ℚ → ℚ) (x y radius : ℚ) (o : NumObj) : NumObj :=
  let dx := o.x - x
  let dy := o.y - y
  let distSq := dx * dx + dy * dy
  if distSq < radius * radius ∧ 0 < distSq then
    let dist := sqrtQ distSq
    let force := (1 - dist / radius) * 15
    { o with dx := o.dx + dx / dist * force,
             dy := o.dy + dy / dist * force,
             canBounce := true }
  else o

/-- `apply_explosion_effect` over the whole object list. -/
def applyExplosionEffect (sqrtQ : ℚ → ℚ) (x y radius : ℚ)
    (objs : List NumObj) : List NumObj :=
  objs.map (pushObj sqrtQ x y radius)

/-- Crack-and-shake state of the glass shatter manager.  The
`GlassShatterManager` class (`universal_class`) is not under `src/`, so
this structure is modelled from the spec: `handle_misclick` adds one
crack and sets the manager's shake duration and magnitude to fixed
misclick constants (the parameters `mcd`, `mcm` below). -/
structure Shatter where
  cracks : ℕ
  shakeDuration : ℤ
  shakeMagnitude : ℤ
deriving DecidableEq, Repr

/-- Modelled from the spec: a misclick adds one crack and starts the
misclick shake. -/
def handleMisclick (mcd mcm : ℤ) (g : Shatter) : Shatter :=
  { cracks := g.cracks + 1, shakeDuration := mcd, shakeMagnitude := mcm }

/-- The `NumbersLevel` state read and written by `_handle_click`.
Calls into collaborators that keep no further modelled state
(`create_flame_effect`, `trigger_convergence`, `create_particle`,
`play_target_sound`) are recorded as call counters. -/
structure NumbersClickState where
  numbers : List NumObj
  score : ℤ
  targetNumber : ℕ
  numbersToTarget : List ℕ
  numbersDestroyed : ℕ
  gameStarted : Bool
  glass : Shatter
  lrmExplosions : List Expl
  flameCalls : ℕ
  convergenceCalls : ℕ
  particleRequests : ℕ
  soundCalls : ℕ
deriving DecidableEq, Repr

/-- The destruction branch of `_handle_click` (lines 347–383): score,
pronunciation sound, explosion via the level resource manager, flame and
convergence effects, push effect on all numbers, 20 particles, removal
of the clicked number (Python `list.remove`: first value-equal element
of the pushed list), destruction counter and target advance.  `t` is the
creation time the resource manager records; `none` models the uncaught
exception of `create_explosion` at capacity 0. -/
def destroyNumber (sqrtQ : ℚ → ℚ) (cap : ℕ) (color : Color) (t : ℚ)
    (o : NumObj) (s : NumbersClickState) : Option NumbersClickState :=
  match lrmCreateExplosion cap o.x o.y color 270 30 t s.lrmExplosions with
  | none => none
  | some ex =>
    let pushed := applyExplosionEffect sqrtQ o.x o.y 150 s.numbers
    let ntt := eraseFirst (fun v => v == s.targetNumber) s.numbersToTarget
    some { s with
             score := s.score + 10,
             soundCalls := s.soundCalls + 1,
             lrmExplosions := ex,
             flameCalls := s.flameCalls + 1,
             convergenceCalls := s.convergenceCalls + 1,
             particleRequests := s.particleRequests + 20,
             numbers := eraseFirst (fun n => n == o) pushed,
             numbersDestroyed := s.numbersDestroyed + 1,
             numbersToTarget := ntt,
             targetNumber := ntt.headD s.targetNumber }

/-- The scanning loop of `_handle_click` (lines 344–386): the first
component is the `hit_target` flag, the second the first rect-colliding
object whose value equals the target.  The scan does not stop at a
colliding non-target: that branch is literally `pass`. -/
def numbersClickLoop (t : ℕ) (cx cy : ℚ) :
    List NumObj → Bool × Option NumObj
  | [] => (false, none)
  | o :: rest =>
    if collidepoint o.rect cx cy then
      if o.value == t then (true, some o)
      else (true, (numbersClickLoop t cx cy rest).2)
    else numbersClickLoop t cx cy rest

/-- `NumbersLevel._handle_click` (lines 338–390): destroy the first
colliding target, otherwise forward a misclick to the glass shatter
manager when nothing collided and the game has started. -/
def numbersHandleClick (sqrtQ : ℚ → ℚ) (cap : ℕ) (color : Color)
    (mcd mcm : ℤ) (t cx cy : ℚ) (s : NumbersClickState) :
    Option NumbersClickState :=
  let r := numbersClickLoop s.targetNumber cx cy s.numbers
  match r.2 with
  | some o => destroyNumber sqrtQ cap color t o s
  | none =>
    if !r.1 && s.gameStarted then
      some { s with glass := handleMisclick mcd mcm s.glass }
    else some s

/-- The `game_loop` state read and written by the letter click branch of
`SS6.origional.py` (lines 366–416).  `shakeDuration`/`shakeMagnitude`
are the module-level globals, distinct from the glass shatter manager's
own shake state. -/
structure Ss6ClickState where
  letters : List NumObj
  score : ℤ
  targetLetter : ℕ
  lettersToTarget : List ℕ
  lettersDestroyed : ℕ
  gameStarted : Bool
  glass : Shatter
  explosions : List Ss6Expl
  shakeDuration : ℤ
  shakeMagnitude : ℤ
  flameCalls : ℕ
  convergenceCalls : ℕ
  particleRequests : ℕ
deriving DecidableEq, Repr

/-- The scanning loop of the `game_loop` click branch (lines 369–412):
`hit_target` flag, first colliding target, and whether the
wrong-target branch ran (it sets `shake_duration = 5`,
`shake_magnitude = 3` each time it is visited). -/
def ss6ClickLoop (t : ℕ) (cx cy : ℚ) :
    List NumObj → Bool × Option NumObj × Bool
  | [] => (false, none, false)
  | o :: rest =>
    if collidepoint o.rect cx cy then
      if o.value == t then (true, some o, false)
      else (true, (ss6ClickLoop t cx cy rest).2.1, true)
    else ss6ClickLoop t cx cy rest

/-- The destruction branch of the `game_loop` click handler
(lines 374–410): score, legacy `create_explosion` (which also bumps the
global shake duration to at least 10), flame and convergence effects,
push effect, 20 particles, removal and target advance.  `none` models
the `ValueError` of `min([])` at capacity 0. -/
def ss6DestroyLetter (sqrtQ : ℚ → ℚ) (maxExpl : ℕ) (color : Color)
    (o : NumObj) (s : Ss6ClickState) : Option Ss6ClickState :=
  match ss6CreateExplosion maxExpl o.x o.y color 270 30 s.explosions
      s.shakeDuration with
  | none => none
  | some p =>
    let pushed := applyExplosionEffect sqrtQ o.x o.y 150 s.letters
    let ltt := eraseFirst (fun v => v == s.targetLetter) s.lettersToTarget
    some { s with
             score := s.score + 10,
             explosions := p.1,
             shakeDuration := p.2,
             flameCalls := s.flameCalls + 1,
             convergenceCalls := s.convergenceCalls + 1,
             particleRequests := s.particleRequests + 20,
             letters := eraseFirst (fun n => n == o) pushed,
             lettersDestroyed := s.lettersDestroyed + 1,
             lettersToTarget := ltt,
             targetLetter := ltt.headD s.targetLetter }

/-- The letter click branch of `game_loop` (lines 366–416): the
wrong-target assignments run while scanning (before any later
destruction), then the first colliding target is destroyed, else a
misclick is forwarded when nothing collided and the game has started. -/
def ss6HandleClick (sqrtQ : ℚ → ℚ) (maxExpl : ℕ) (color : Color)
    (mcd mcm : ℤ) (cx cy : ℚ) (s : Ss6ClickState) : Option Ss6ClickState :=
  let r := ss6ClickLoop s.targetLetter cx cy s.letters
  let s1 := if r.2.2 then
      { s with shakeDuration := 5, shakeMagnitude := 3 } else s
  match r.2.1 with
  | some o => ss6DestroyLetter sqrtQ maxExpl color o s1
  | none =>
    if !r.1 && s1.gameStarted then
      some { s1 with glass := handleMisclick mcd mcm s1.glass }
    else some s1

def c6rect : RectQ := { left := 50, top := 50, width := 10, height := 10 }

def c6num : NumObj :=
  { value := 3, x := 55, y := 55, rect := c6rect, size := 10,
    dx := 1, dy := 1, canBounce := false, mass := 1 }

def c6nstate : NumbersClickState :=
  { numbers := [c6num], score := 0, targetNumber := 7,
    numbersToTarget := [7, 3], numbersDestroyed := 0, gameStarted := true,
    glass := { cracks := 0, shakeDuration := 0, shakeMagnitude := 0 },
    lrmExplosions := [], flameCalls := 0, convergenceCalls := 0,
    particleRequests := 0, soundCalls := 0 }

theorem c6_collide : collidepoint c6rect 55 55 = true := by
  simp only [collidepoint, c6rect, Bool.and_eq_true, decide_eq_true_eq]
  norm_num

theorem c6_loop : numbersClickLoop 7 55 55 [c6num] = (true, none) := by
  simp [numbersClickLoop, c6num, c6_collide]

/-- C6 counterexample: in `NumbersLevel._handle_click` a click at
(55, 55), inside the rect of the only live number (value 3, target 7),
returns the state completely unchanged — in particular the glass
shatter manager's shake duration stays 0, so NO minor screen shake is
triggered (the wrong-target branch is `pass`). -/
theorem nontarget_click_counterexample :
    numbersHandleClick (fun q => q) 20 (255, 0, 0) 10 5 0 55 55 c6nstate
        = some c6nstate ∧
    c6nstate.glass.shakeDuration = 0 := by
  constructor
  · simp [numbersHandleClick, c6nstate, c6_loop]
  · rfl

theorem numbersClickLoop_all_wrong (t : ℕ) (cx cy : ℚ) (l : List NumObj) :
    (∀ o ∈ l, collidepoint o.rect cx cy = true → (o.value == t) = false) →
    numbersClickLoop t cx cy l =
      (l.any (fun o => collidepoint o.rect cx cy), none) := by
  induction l with
  | nil => intro _; rfl
  | cons o rest ih =>
    intro hw
    have ih' := ih (fun x hx hc => hw x (List.mem_cons_of_mem o hx) hc)
    by_cases hc : collidepoint o.rect cx cy = true
    · have hv := hw o (List.mem_cons_self o rest) hc
      simp [numbersClickLoop, hc, hv, ih']
    · rw [Bool.not_eq_true] at hc
      simp [numbersClickLoop, hc, ih']

theorem ss6ClickLoop_all_wrong (t : ℕ) (cx cy : ℚ) (l : List NumObj) :
    (∀ o ∈ l, collidepoint o.rect cx cy = true → (o.value == t) = false) →
    ss6ClickLoop t cx cy l =
      (l.any (fun o => collidepoint o.rect cx cy), none,
       l.any (fun o => collidepoint o.rect cx cy)) := by
  induction l with
  | nil => intro _; rfl
  | cons o rest ih =>
    intro hw
    have ih' := ih (fun x hx hc => hw x (List.mem_cons_of_mem o hx) hc)
    by_cases hc : collidepoint o.rect cx cy = true
    · have hv := hw o (List.mem_cons_self o rest) hc
      simp [ss6ClickLoop, hc, hv, ih']
    · rw [Bool.not_eq_true] at hc
      simp [ss6ClickLoop, hc, ih']

/-- C6: during active play, a click inside the bounding rect of a live
object whose value is not the current target.  In
`NumbersLevel._handle_click` (when every colliding object is a
non-target and at least one object collides) the state is returned
COMPLETELY unchanged: no crack is added and no object removed and the
score kept, but also no screen shake of any kind is triggered.  The
minor shake the claim describes exists only in the legacy `game_loop`
handler of `SS6.origional.py`, which returns the state with only
`shake_duration = 5` and `shake_magnitude = 3` changed. -/
theorem nontarget_click_amended (sqrtQ : ℚ → ℚ) (cap maxExpl : ℕ)
    (color : Color) (mcd mcm : ℤ) (t cx cy : ℚ)
    (s : NumbersClickState) (u : Ss6ClickState)
    (hs1 : ∀ o ∈ s.numbers, collidepoint o.rect cx cy = true →
      (o.value == s.targetNumber) = false)
    (hs2 : s.numbers.any (fun o => collidepoint o.rect cx cy) = true)
    (hu1 : ∀ o ∈ u.letters, collidepoint o.rect cx cy = true →
      (o.value == u.targetLetter) = false)
    (hu2 : u.letters.any (fun o => collidepoint o.rect cx cy) = true) :
    numbersHandleClick sqrtQ cap color mcd mcm t cx cy s = some s ∧
    ss6HandleClick sqrtQ maxExpl color mcd mcm cx cy u =
      some { u with shakeDuration := 5, shakeMagnitude := 3 } := by
  constructor
  · have hl := numbersClickLoop_all_wrong s.targetNumber cx cy s.numbers hs1
    rw [hs2] at hl
    simp [numbersHandleClick, hl]
  · have hl := ss6ClickLoop_all_wrong u.targetLetter cx cy u.letters hu1
    rw [hu2] at hl
    simp [ss6HandleClick, hl]

def c6ustate : Ss6ClickState :=
  { letters := [c6num], score := 0, targetLetter := 7,
    lettersToTarget := [7, 3], lettersDestroyed := 0, gameStarted := true,
    glass := { cracks := 0, shakeDuration := 0, shakeMagnitude := 0 },
    explosions := [], shakeDuration := 0, shakeMagnitude := 0,
    flameCalls := 0, convergenceCalls := 0, particleRequests := 0 }

/-- Witness for C6 at a concrete non-target click. -/
theorem nontarget_click_amended_witness :
    numbersHandleClick (fun q => q) 20 (255, 0, 0) 10 5 0 55 55 c6nstate
        = some c6nstate ∧
    ss6HandleClick (fun q => q) 20 (255, 0, 0) 10 5 55 55 c6ustate =
      some { c6ustate with shakeDuration := 5, shakeMagnitude := 3 } :=
  nontarget_click_amended (fun q => q) 20 20 (255, 0, 0) 10 5 0 55 55
    c6nstate c6ustate
    (by
      intro o ho hcol
      have ho' : o = c6num := by simpa [c6nstate] using ho
      subst ho'
      decide)
    (by simp [c6nstate, c6num, c6_collide])
    (by
      intro o ho hcol
      have ho' : o = c6num := by simpa [c6ustate] using ho
      subst ho'
      decide)
    (by simp [c6ustate, c6num, c6_collide])

end SS6
